import Mathlib

/-!
Verification of the data-quality pipeline (ingestion + automatic correction)
of the dataops-governance-lab repository.

The pandas dataframes of `pipeline_ingestao.py` and `correcao_automatica.py`
are shallowly embedded as Lean lists of per-entity records whose fields all
hold a dynamically-typed `Value` (string, number, date, boolean or the
null/NaN/NaT marker), mirroring the dynamic typing of dataframe cells.
Column-wise pandas operations become `List.map` over records, row filters
become `List.filter`, `drop_duplicates` becomes an explicit keep-first /
keep-last scan keyed by the natural key, and `sort_values` becomes a stable
insertion sort on the key (ties keep source order).
-/

/-- Dynamically typed cell of a dataframe.  `vNull` stands for all of
pandas' missing markers (NaN, NaT, None). -/
inductive Value where
  | vStr (s : String)
  | vNum (n : Int)
  | vDate (d : Int)
  | vBool (b : Bool)
  | vNull
deriving DecidableEq, Repr

namespace Value

/-- Python `str(x)` / pandas `astype(str)`: the missing marker prints as
the string "nan". -/
def pyStr : Value → String
  | vStr s => s
  | vNum n => toString n
  | vDate d => toString d
  | vBool b => if b then "True" else "False"
  | vNull => "nan"

/-- pandas `notna`. -/
def notna : Value → Bool
  | vNull => false
  | _ => true

/-- Elementwise pandas `<` between two date columns: true only when both
cells are actual dates (comparisons against NaT are false). -/
def vltDate : Value → Value → Bool
  | vDate a, vDate b => decide (a < b)
  | _, _ => false

/-- Elementwise pandas `col >= n` against a numeric literal: false on any
non-numeric cell (such cells never satisfy the filter). -/
def numGe (v : Value) (n : Int) : Bool :=
  match v with
  | vNum m => decide (n ≤ m)
  | _ => false

/-- Elementwise pandas `col > n`. -/
def numGt (v : Value) (n : Int) : Bool :=
  match v with
  | vNum m => decide (n < m)
  | _ => false

/-- Elementwise pandas `col < n`. -/
def numLt (v : Value) (n : Int) : Bool :=
  match v with
  | vNum m => decide (m < n)
  | _ => false

/-- pandas `fillna(dflt)` on one cell (`v.fillna dflt`). -/
def fillna : Value → Value → Value
  | vNull, dflt => dflt
  | v, _ => v

end Value

/-! ### String helpers (modelled on lists of characters) -/

/-- Character is plain ASCII. -/
def isAsciiChar (c : Char) : Bool := decide (c.toNat < 128)

/-- NFKD decomposition followed by `encode('ascii', errors='ignore')`,
restricted to the Latin accented letters relevant to the datasets; this
small table abstracts the full Unicode decomposition table.  ASCII
characters are untouched; unmapped non-ASCII characters are dropped, as
the ignore-errors ASCII encoding does. -/
def decompChar (c : Char) : List Char :=
  if c.toNat < 128 then [c]
  else if c = 'á' ∨ c = 'à' ∨ c = 'â' ∨ c = 'ã' ∨ c = 'ä' then ['a']
  else if c = 'é' ∨ c = 'è' ∨ c = 'ê' then ['e']
  else if c = 'í' ∨ c = 'î' then ['i']
  else if c = 'ó' ∨ c = 'ô' ∨ c = 'õ' then ['o']
  else if c = 'ú' ∨ c = 'ü' then ['u']
  else if c = 'ç' then ['c']
  else if c = 'Á' ∨ c = 'Ã' then ['A']
  else if c = 'É' then ['E']
  else if c = 'Ç' then ['C']
  else []

/-- The chain `.str.normalize('NFKD').str.encode('ascii', errors='ignore')
.str.decode('utf-8')` applied to one string. -/
def normalizeAscii (s : String) : String :=
  String.mk (((s.data.map decompChar).flatten).filter isAsciiChar)

/-- Column-level encoding fix: `astype(str)` then ASCII normalization. -/
def normStrV (v : Value) : Value := .vStr (normalizeAscii v.pyStr)

/-- Split of a character list at dash characters, the `'-'`-separated
fields of a date string. -/
def splitDash : List Char → List (List Char)
  | [] => [[]]
  | c :: rest =>
    match splitDash rest with
    | [] => [[]]
    | g :: gs => if c = '-' then [] :: g :: gs else (c :: g) :: gs

/-- Non-empty run of decimal digits. -/
def allDigitsL (cs : List Char) : Bool := decide (0 < cs.length) && cs.all Char.isDigit

/-- Numeric value of a digit run. -/
def digitsVal (cs : List Char) : Nat :=
  cs.foldl (fun acc c => acc * 10 + (c.toNat - 48)) 0

/-- Permissive date parser (`pd.to_datetime(..., errors='coerce')`),
modelled on ISO `YYYY-MM-DD` strings; a date is encoded as the integer
`y*10000 + m*100 + d`, which respects chronological order. -/
def parseISODate (s : String) : Option Int :=
  match splitDash s.data with
  | [y, m, d] =>
    if allDigitsL y && allDigitsL m && allDigitsL d &&
       decide (1 ≤ digitsVal m) && decide (digitsVal m ≤ 12) &&
       decide (1 ≤ digitsVal d) && decide (digitsVal d ≤ 31) then
      some (Int.ofNat (digitsVal y * 10000 + digitsVal m * 100 + digitsVal d))
    else none
  | _ => none

/-- Cell-level date parsing: an already-parsed date cell parses to itself,
a string cell is run through the parser, everything else fails. -/
def parseDateV : Value → Option Int
  | .vDate d => some d
  | .vStr s => parseISODate s
  | _ => none

/-- The `pd.to_datetime(col, errors='coerce')` cell transform: parse
failures become the missing marker (NaT). -/
def toDateV (v : Value) : Value :=
  match parseDateV v with
  | some d => .vDate d
  | none => .vNull

/-- Lowercasing of one character, explicit on the ASCII range. -/
def lowerChar (c : Char) : Char :=
  if 65 ≤ c.toNat ∧ c.toNat ≤ 90 then
    Char.ofNat (c.toNat + 32)
  else c

/-- Whitespace for `str.strip`. -/
def isSpaceChar (c : Char) : Bool :=
  c = ' ' || c = '\t' || c = '\n' || c = '\r'

/-- Strip of leading and trailing whitespace. -/
def trimChars (cs : List Char) : List Char :=
  ((cs.dropWhile isSpaceChar).reverse.dropWhile isSpaceChar).reverse

/-- The `.str.lower().str.strip()` cell transform; on a non-string cell
the `.str` accessor yields the missing marker. -/
def lowerStripV : Value → Value
  | .vStr s => .vStr (String.mk (trimChars (s.data.map lowerChar)))
  | _ => .vNull

/-- Left padding with zeros up to width 11 (`str.pad(width=11,
side='left', fillchar='0')`).  Strings of length 11 or more are returned
unchanged. -/
def padLeftZeros (cs : List Char) : List Char :=
  List.replicate (11 - cs.length) '0' ++ cs

/-- Phone normalization of `padronizar_dados`: `astype(str)`, removal of
every non-digit (`replace(r"\D", "")`), then left zero-padding to width
11.  A missing phone becomes the string "nan", whose letters are removed,
so it pads to "00000000000". -/
def normTelefoneV (v : Value) : Value :=
  .vStr (String.mk (padLeftZeros (v.pyStr.data.filter Char.isDigit)))

/-- Python truthiness used by `astype(bool)`; note `bool(nan)` is true. -/
def toBoolV : Value → Value
  | .vBool b => .vBool b
  | .vNum n => .vBool (decide (n ≠ 0))
  | .vStr s => .vBool (decide (s ≠ ""))
  | .vDate _ => .vBool true
  | .vNull => .vBool true

/-- The `re.search` semantics of pandas `str.contains` for the e-mail
pattern `[^@]+@[^@]+\.[^@]+`: some position i holds an at-sign preceded
by a non-at character, some later position j holds a dot with only
non-at characters strictly between i and j and at least one of them, and
the character right after j exists and is not an at-sign.  On a
non-string cell the `.str` accessor yields missing, which the
conjunction with `notna` in the source excludes. -/
def emailSearch (cs : List Char) : Bool :=
  (List.range cs.length).any fun i =>
    (List.range cs.length).any fun j =>
      decide (1 ≤ i) && decide (i + 2 ≤ j) && decide (j + 1 < cs.length) &&
      decide (cs.getD i ' ' = '@') && decide (cs.getD j ' ' = '.') &&
      decide (cs.getD (i - 1) ' ' ≠ '@') && decide (cs.getD (j + 1) ' ' ≠ '@') &&
      ((List.range cs.length).all fun t =>
        !(decide (i < t) && decide (t < j)) || decide (cs.getD t ' ' ≠ '@'))

/-- Cell-level e-mail validity test (`notna` together with
`str.contains` of the pattern). -/
def emailOkV : Value → Bool
  | .vStr s => emailSearch s.data
  | _ => false

/-- pandas `isin` against a collected key column. -/
def isinV (v : Value) (ids : List Value) : Bool := decide (v ∈ ids)

/-! ### Generic table operations (dedup and stable sort by a key) -/

section TableOps

variable {α : Type} (key : α → Value)

/-- Scan implementing `drop_duplicates(subset=key, keep='first')`: a row
is kept exactly when no earlier row of the table has the same key; the
accumulator carries the keys already seen. -/
def dedupFirstAux (seen : List Value) : List α → List α
  | [] => []
  | a :: l =>
    if key a ∈ seen then dedupFirstAux seen l
    else a :: dedupFirstAux (key a :: seen) l

/-- pandas `drop_duplicates(subset=key, keep='first')`. -/
def dedupFirst (l : List α) : List α := dedupFirstAux key [] l

/-- pandas `drop_duplicates(subset=key, keep='last')`: a row is kept
exactly when no later row of the table has the same key. -/
def dedupLast : List α → List α
  | [] => []
  | a :: l =>
    if ∃ b ∈ l, key b = key a then dedupLast l
    else a :: dedupLast l

/-- Total comparison on cells used to model `sort_values`: cells of the
same kind compare by their payload, cells of different kinds by an
arbitrary fixed rank (missing values last, as pandas places NaNs last). -/
def vRank : Value → Nat
  | .vBool _ => 0
  | .vNum _ => 1
  | .vDate _ => 2
  | .vStr _ => 3
  | .vNull => 4

/-- Lexicographic order on character lists (comparing code points),
modelling string comparison. -/
def strLeB : List Char → List Char → Bool
  | [], _ => true
  | _ :: _, [] => false
  | a :: as, b :: bs =>
    if a.toNat = b.toNat then strLeB as bs else decide (a.toNat < b.toNat)

/-- Boolean order on cells (reflexive, total, transitive). -/
def vleB : Value → Value → Bool
  | .vNum a, .vNum b => decide (a ≤ b)
  | .vDate a, .vDate b => decide (a ≤ b)
  | .vStr a, .vStr b => strLeB a.data b.data
  | .vBool a, .vBool b => !a || b
  | .vNull, .vNull => true
  | x, y => decide (vRank x < vRank y)

/-- pandas `sort_values(by=key)`, modelled as a stable sort: rows with
equal keys keep their source order. -/
def sortByKey (l : List α) : List α :=
  l.insertionSort fun a b => vleB (key a) (key b) = true

/-- The `remover_duplicatas` helper of `correcao_automatica.py`:
`df.sort_values(by=chave).drop_duplicates(subset=chave, keep="last")`. -/
def remover_duplicatas (l : List α) : List α :=
  dedupLast key (sortByKey key l)

end TableOps

/-! ### Entity records (fixed per-entity schemas, all cells dynamic) -/

/-- Row of `clientes.csv`. -/
structure Cliente where
  id_cliente : Value
  nome : Value
  email : Value
  telefone : Value
  data_nascimento : Value
  data_cadastro : Value
  cidade : Value
  estado : Value
deriving DecidableEq, Repr

/-- Row of `clientes_lab.csv`. -/
structure ClienteLab where
  id_cliente : Value
  nome : Value
  email : Value
  idade : Value
  status : Value
  data_cadastro : Value
deriving DecidableEq, Repr

/-- Row of `produtos.csv`. -/
structure Produto where
  id_produto : Value
  nome_produto : Value
  categoria : Value
  preco : Value
  estoque : Value
  data_criacao : Value
  ativo : Value
deriving DecidableEq, Repr

/-- Row of `vendas.csv`. -/
structure Venda where
  id_venda : Value
  id_cliente : Value
  id_produto : Value
  quantidade : Value
  valor_unitario : Value
  valor_total : Value
  data_venda : Value
  status : Value
deriving DecidableEq, Repr

/-- Row of `logistica.csv`. -/
structure Logistica where
  id_entrega : Value
  id_venda : Value
  data_envio : Value
  data_entrega_prevista : Value
  data_entrega_real : Value
  status_entrega : Value
deriving DecidableEq, Repr

/-! ### Ingestion stage (`pipeline_ingestao.py`) -/

/-- The `clean_clientes` function: encoding fix on nome and cidade,
keep-first dedup on id_cliente, e-mail validation, nome/telefone
presence, date parsing of the two date columns and drop of rows whose
dates failed to parse. -/
def clean_clientes (df : List Cliente) : List Cliente :=
  let df := df.map fun r => { r with nome := normStrV r.nome, cidade := normStrV r.cidade }
  let df := dedupFirst (fun r => r.id_cliente) df
  let df := df.filter fun r => r.email.notna && emailOkV r.email
  let df := df.filter fun r => r.nome.notna && r.telefone.notna
  let df := df.map fun r =>
    { r with data_nascimento := toDateV r.data_nascimento,
             data_cadastro := toDateV r.data_cadastro }
  let df := df.filter fun r => r.data_nascimento.notna && r.data_cadastro.notna
  df

/-- The `clean_clientes_lab` function. -/
def clean_clientes_lab (df : List ClienteLab) : List ClienteLab :=
  let df := df.map fun r => { r with nome := normStrV r.nome }
  let df := dedupFirst (fun r => r.id_cliente) df
  let df := df.filter fun r => r.email.notna && emailOkV r.email
  let df := df.filter fun r => r.idade.notna && r.idade.numGe 0 && r.idade.numLt 120
  let df := df.filter fun r => r.status.notna
  let df := df.map fun r => { r with data_cadastro := toDateV r.data_cadastro }
  let df := df.filter fun r => r.data_cadastro.notna
  df

/-- The `clean_produtos` function. -/
def clean_produtos (df : List Produto) : List Produto :=
  let df := df.map fun r =>
    { r with nome_produto := normStrV r.nome_produto, categoria := normStrV r.categoria }
  let df := dedupFirst (fun r => r.id_produto) df
  let df := df.filter fun r => r.preco.numGe 0
  let df := df.filter fun r => r.estoque.numGe 0
  let df := df.map fun r => { r with data_criacao := toDateV r.data_criacao }
  let df := df.filter fun r => r.data_criacao.notna
  let df := df.map fun r => { r with ativo := toBoolV r.ativo }
  df

/-- The `clean_vendas` function; `clientes_ids` and `produtos_ids` are
the key columns collected from the already-cleaned parent tables. -/
def clean_vendas (df : List Venda) (clientes_ids produtos_ids : List Value) : List Venda :=
  let df := dedupFirst (fun r => r.id_venda) df
  let df := df.filter fun r => isinV r.id_cliente clientes_ids
  let df := df.filter fun r => isinV r.id_produto produtos_ids
  let df := df.filter fun r => r.quantidade.numGt 0
  let df := df.filter fun r => r.valor_unitario.numGe 0
  let df := df.filter fun r => r.valor_total.numGe 0
  let df := df.map fun r => { r with data_venda := toDateV r.data_venda }
  let df := df.filter fun r => r.data_venda.notna
  df

/-- The `clean_logistica` function: dedup, foreign-key filter against
the cleaned sales, then date coercion of the three date columns with no
subsequent drop step. -/
def clean_logistica (df : List Logistica) (vendas_ids : List Value) : List Logistica :=
  let df := dedupFirst (fun r => r.id_entrega) df
  let df := df.filter fun r => isinV r.id_venda vendas_ids
  let df := df.map fun r =>
    { r with data_envio := toDateV r.data_envio,
             data_entrega_prevista := toDateV r.data_entrega_prevista,
             data_entrega_real := toDateV r.data_entrega_real }
  df

/-- Raw extracts of the five entities as loaded from `datasets/`. -/
structure RawData where
  clientes : List Cliente
  clientes_lab : List ClienteLab
  produtos : List Produto
  vendas : List Venda
  logistica : List Logistica
deriving DecidableEq, Repr

/-- Cleaned tables written to `data/` by the ingestion pipeline. -/
structure CleanData where
  clientes : List Cliente
  clientes_lab : List ClienteLab
  produtos : List Produto
  vendas : List Venda
  logistica : List Logistica
deriving DecidableEq, Repr

/-- Cleaning section of the ingestion pipeline body: the five cleaners
run in dependency order, child cleaners receiving the key sets collected
from the already-cleaned parents. -/
def runCleanStage (raw : RawData) : CleanData :=
  let clientes := clean_clientes raw.clientes
  let clientes_lab := clean_clientes_lab raw.clientes_lab
  let produtos := clean_produtos raw.produtos
  let vendas := clean_vendas raw.vendas
    (clientes.map fun r => r.id_cliente) (produtos.map fun r => r.id_produto)
  let logistica := clean_logistica raw.logistica (vendas.map fun r => r.id_venda)
  ⟨clientes, clientes_lab, produtos, vendas, logistica⟩

/-- Source directory as seen by the module-level try block: each of the
five raw files is either present with its rows or absent. -/
structure FileSystem where
  clientes : Option (List Cliente)
  clientes_lab : Option (List ClienteLab)
  produtos : Option (List Produto)
  vendas : Option (List Venda)
  logistica : Option (List Logistica)

/-- One `pd.read_csv` call: an absent file raises, which the
module-level except block re-raises after logging. -/
def readCsv {α : Type} (name : String) (f : Option (List α)) : Except String (List α) :=
  match f with
  | some rows => .ok rows
  | none => .error name

/-- Module-level body of `pipeline_ingestao.py`: the five loads happen
first, then the cleaning, and only then the five `to_csv` writes.  The
list of files written is the payload of the success value; a raised
exception propagates before any write executes, so the error carries no
writes. -/
def runIngestao (fs : FileSystem) : Except String (List String × CleanData) := do
  let clientes ← readCsv "clientes.csv" fs.clientes
  let clientes_lab ← readCsv "clientes_lab.csv" fs.clientes_lab
  let produtos ← readCsv "produtos.csv" fs.produtos
  let vendas ← readCsv "vendas.csv" fs.vendas
  let logistica ← readCsv "logistica.csv" fs.logistica
  let cd := runCleanStage ⟨clientes, clientes_lab, produtos, vendas, logistica⟩
  pure (["clientes.csv", "clientes_lab.csv", "produtos.csv", "vendas.csv", "logistica.csv"], cd)

/-- Output files produced by an ingestion run: none when the run
terminated with an error. -/
def writtenFiles (r : Except String (List String × CleanData)) : List String :=
  match r with
  | .ok (files, _) => files
  | .error _ => []

/-! ### Correction stage (`correcao_automatica.py`)

The generic `padronizar_dados` loops over the dataframe columns and
applies the date rule to every column whose name contains "data", the
phone rule to every column whose name contains "telefone" and the e-mail
rule to every column whose name contains "email".  With the fixed
per-entity schemas this resolves to the per-entity maps below (for
clientes: data_nascimento, data_cadastro, telefone, email; for
clientes_lab: data_cadastro, email; for produtos: data_criacao; for
vendas: data_venda; for logistica: the three data_* columns — no other
column name of any entity contains one of the three substrings). -/

/-- The `padronizar_dados` column loop instantiated at the clientes
schema. -/
def padronizar_dados_clientes (df : List Cliente) : List Cliente :=
  df.map fun r =>
    { r with data_nascimento := toDateV r.data_nascimento,
             data_cadastro := toDateV r.data_cadastro,
             telefone := normTelefoneV r.telefone,
             email := lowerStripV r.email }

/-- The `padronizar_dados` column loop instantiated at the clientes_lab
schema. -/
def padronizar_dados_clientes_lab (df : List ClienteLab) : List ClienteLab :=
  df.map fun r =>
    { r with data_cadastro := toDateV r.data_cadastro,
             email := lowerStripV r.email }

/-- The `padronizar_dados` column loop instantiated at the produtos
schema. -/
def padronizar_dados_produtos (df : List Produto) : List Produto :=
  df.map fun r => { r with data_criacao := toDateV r.data_criacao }

/-- The `padronizar_dados` column loop instantiated at the vendas
schema. -/
def padronizar_dados_vendas (df : List Venda) : List Venda :=
  df.map fun r => { r with data_venda := toDateV r.data_venda }

/-- The `padronizar_dados` column loop instantiated at the logistica
schema. -/
def padronizar_dados_logistica (df : List Logistica) : List Logistica :=
  df.map fun r =>
    { r with data_envio := toDateV r.data_envio,
             data_entrega_prevista := toDateV r.data_entrega_prevista,
             data_entrega_real := toDateV r.data_entrega_real }

/-- The `preencher_campos_vazios` branch for tipo == "clientes". -/
def preencher_clientes (df : List Cliente) : List Cliente :=
  df.map fun r =>
    { r with estado := r.estado.fillna (.vStr "SP"),
             cidade := r.cidade.fillna (.vStr "São Paulo"),
             nome := r.nome.fillna (.vStr "Desconhecido") }

/-- The `preencher_campos_vazios` branch for tipo == "produtos". -/
def preencher_produtos (df : List Produto) : List Produto :=
  df.map fun r =>
    { r with categoria := r.categoria.fillna (.vStr "Outros"),
             ativo := r.ativo.fillna (.vBool true) }

/-- The `preencher_campos_vazios` branch for tipo == "vendas". -/
def preencher_vendas (df : List Venda) : List Venda :=
  df.map fun r => { r with status := r.status.fillna (.vStr "Pendente") }

/-- The `preencher_campos_vazios` branch for tipo == "logistica". -/
def preencher_logistica (df : List Logistica) : List Logistica :=
  df.map fun r => { r with status_entrega := r.status_entrega.fillna (.vStr "Em trânsito") }

/-- The `validar_relacionamentos` function: retains the sales rows whose
two foreign keys are both members of the corresponding parent key
columns. -/
def validar_relacionamentos (vendas : List Venda) (clientes : List Cliente)
    (produtos : List Produto) : List Venda :=
  vendas.filter fun v =>
    isinV v.id_cliente (clientes.map fun c => c.id_cliente) &&
    isinV v.id_produto (produtos.map fun p => p.id_produto)

/-- The `corrigir_inconsistencias` function: vendas is returned as
received; in logistica, rows whose actual delivery date is strictly
earlier than the ship date get that single field set to NaT. -/
def corrigir_inconsistencias (vendas : List Venda) (logistica : List Logistica) :
    List Venda × List Logistica :=
  (vendas, logistica.map fun r =>
    if Value.vltDate r.data_entrega_real r.data_envio then
      { r with data_entrega_real := .vNull }
    else r)

/-- In-memory transform of `processar_dataset("clientes", "id_cliente")`
(the surrounding read and write are modelled in the driver). -/
def processar_clientes (df : List Cliente) : List Cliente :=
  preencher_clientes (remover_duplicatas (fun r => r.id_cliente) (padronizar_dados_clientes df))

/-- In-memory transform of `processar_dataset("clientes_lab",
"id_cliente")`; `preencher_campos_vazios` has no branch for this tipo
and returns the table unchanged. -/
def processar_clientes_lab (df : List ClienteLab) : List ClienteLab :=
  remover_duplicatas (fun r => r.id_cliente) (padronizar_dados_clientes_lab df)

/-- In-memory transform of `processar_dataset("produtos", "id_produto")`. -/
def processar_produtos (df : List Produto) : List Produto :=
  preencher_produtos (remover_duplicatas (fun r => r.id_produto) (padronizar_dados_produtos df))

/-- In-memory transform of `processar_dataset("vendas", "id_venda")`. -/
def processar_vendas (df : List Venda) : List Venda :=
  preencher_vendas (remover_duplicatas (fun r => r.id_venda) (padronizar_dados_vendas df))

/-- In-memory transform of `processar_dataset("logistica", "id_entrega")`. -/
def processar_logistica (df : List Logistica) : List Logistica :=
  preencher_logistica (remover_duplicatas (fun r => r.id_entrega) (padronizar_dados_logistica df))

/-- Tables written to `data_corrigida/` by `main()`: the five
`*_corrigido.csv` files, where vendas and logistica are overwritten by
the final writes after `validar_relacionamentos` and
`corrigir_inconsistencias`. -/
structure CorrectedData where
  clientes : List Cliente
  produtos : List Produto
  vendas : List Venda
  logistica : List Logistica
  clientes_lab : List ClienteLab
deriving DecidableEq, Repr

/-- The `main()` of `correcao_automatica.py` on the tables of `data/`
(the CSV round trip between the two scripts is modelled as
value-preserving).  Vendas is re-filtered against the corrected parents;
logistica is repaired and written afterwards without being re-filtered
against the reduced vendas table. -/
def runCorrecao (d : CleanData) : CorrectedData :=
  let clientes := processar_clientes d.clientes
  let produtos := processar_produtos d.produtos
  let vendas := processar_vendas d.vendas
  let logistica := processar_logistica d.logistica
  let clientes_lab := processar_clientes_lab d.clientes_lab
  let vendas := validar_relacionamentos vendas clientes produtos
  let vl := corrigir_inconsistencias vendas logistica
  ⟨clientes, produtos, vl.1, vl.2, clientes_lab⟩

/-! ### Generic lemmas about the table operations -/

theorem map_eq_self_of_fixed {α : Type} {f : α → α} {l : List α}
    (h : ∀ a ∈ l, f a = a) : l.map f = l := by
  induction l with
  | nil => rfl
  | cons a t ih =>
    simp only [List.map_cons, h a (List.mem_cons_self a t)]
    rw [ih fun b hb => h b (List.mem_cons_of_mem a hb)]

section DedupLemmas

variable {α : Type} (key : α → Value)

theorem dedupFirstAux_sublist (seen : List Value) (l : List α) :
    (dedupFirstAux key seen l).Sublist l := by
  induction l generalizing seen with
  | nil => simp [dedupFirstAux]
  | cons a t ih =>
    simp only [dedupFirstAux]
    split
    · exact (ih seen).cons a
    · exact (ih (key a :: seen)).cons₂ a

theorem dedupFirst_sublist (l : List α) : (dedupFirst key l).Sublist l :=
  dedupFirstAux_sublist key [] l

theorem dedupFirstAux_keys (seen : List Value) (l : List α) :
    ((dedupFirstAux key seen l).map key).Nodup ∧
      ∀ x ∈ (dedupFirstAux key seen l).map key, x ∉ seen := by
  induction l generalizing seen with
  | nil => simp [dedupFirstAux]
  | cons a t ih =>
    simp only [dedupFirstAux]
    split
    · exact ih seen
    · rename_i hnot
      obtain ⟨hnd, hfresh⟩ := ih (key a :: seen)
      refine ⟨?_, ?_⟩
      · simp only [List.map_cons, List.nodup_cons]
        exact ⟨fun hmem => hfresh _ hmem (List.mem_cons_self _ _), hnd⟩
      · intro x hx hxseen
        rcases List.mem_cons.mp hx with h | h
        · exact hnot (h ▸ hxseen)
        · exact hfresh x h (List.mem_cons_of_mem _ hxseen)

theorem dedupFirst_keys_nodup (l : List α) : ((dedupFirst key l).map key).Nodup :=
  (dedupFirstAux_keys key [] l).1

theorem dedupFirstAux_eq_self {seen : List Value} {l : List α}
    (hnd : (l.map key).Nodup) (hfresh : ∀ a ∈ l, key a ∉ seen) :
    dedupFirstAux key seen l = l := by
  induction l generalizing seen with
  | nil => rfl
  | cons a t ih =>
    simp only [List.map_cons, List.nodup_cons] at hnd
    simp only [dedupFirstAux, if_neg (hfresh a (List.mem_cons_self a t))]
    rw [ih hnd.2]
    intro b hb
    simp only [List.mem_cons, not_or]
    refine ⟨fun hk => hnd.1 ?_, hfresh b (List.mem_cons_of_mem a hb)⟩
    exact hk ▸ List.mem_map_of_mem key hb

theorem dedupFirst_eq_self {l : List α} (hnd : (l.map key).Nodup) :
    dedupFirst key l = l :=
  dedupFirstAux_eq_self key hnd fun _ _ => List.not_mem_nil _

theorem dedupFirstAux_filter_key (k : Value) (seen : List Value) (l : List α) :
    (dedupFirstAux key seen l).filter (fun a => decide (key a = k)) =
      if k ∈ seen then [] else ((l.filter fun a => decide (key a = k)).head?).toList := by
  induction l generalizing seen with
  | nil => simp [dedupFirstAux]
  | cons a t ih =>
    simp only [dedupFirstAux]
    split
    · rename_i hseen
      rw [ih seen]
      by_cases hk : k ∈ seen
      · simp [hk]
      · have hne : ¬ (key a = k) := fun h => hk (h ▸ hseen)
        simp [hk, List.filter_cons, hne]
    · rename_i hseen
      by_cases hak : key a = k
      · have hk : k ∉ seen := fun h => hseen (hak ▸ h)
        rw [List.filter_cons_of_pos (by simpa using hak), ih (key a :: seen)]
        simp [hak, hk, List.filter_cons]
      · rw [List.filter_cons_of_neg (by simpa using hak), ih (key a :: seen)]
        by_cases hk : k ∈ seen
        · simp [hk, List.mem_cons]
        · have : ¬ (k ∈ key a :: seen) := by
            simp only [List.mem_cons, not_or]
            exact ⟨fun h => hak h.symm, hk⟩
          simp [this, hk, List.filter_cons, hak]

theorem dedupFirst_filter_key (k : Value) (l : List α) :
    (dedupFirst key l).filter (fun a => decide (key a = k)) =
      ((l.filter fun a => decide (key a = k)).head?).toList := by
  rw [dedupFirst, dedupFirstAux_filter_key key k [] l, if_neg (List.not_mem_nil k)]

theorem dedupLast_sublist (l : List α) : (dedupLast key l).Sublist l := by
  induction l with
  | nil => simp [dedupLast]
  | cons a t ih =>
    simp only [dedupLast]
    split
    · exact ih.cons a
    · exact ih.cons₂ a

theorem dedupLast_keys_nodup (l : List α) : ((dedupLast key l).map key).Nodup := by
  induction l with
  | nil => simp [dedupLast]
  | cons a t ih =>
    simp only [dedupLast]
    split
    · exact ih
    · rename_i hno
      simp only [List.map_cons, List.nodup_cons]
      refine ⟨fun hmem => ?_, ih⟩
      obtain ⟨b, hb, hkb⟩ := List.mem_map.mp hmem
      exact hno ⟨b, (dedupLast_sublist key t).mem hb, hkb⟩

theorem exists_key_mem_dedupLast (l : List α) :
    ∀ a ∈ l, ∃ b ∈ dedupLast key l, key b = key a := by
  induction l with
  | nil => intro a ha; cases ha
  | cons c t ih =>
    intro a ha
    simp only [dedupLast]
    rcases List.mem_cons.mp ha with rfl | hat
    · split
      · rename_i hdup
        obtain ⟨b, hb, hkb⟩ := hdup
        obtain ⟨b', hb', hkb'⟩ := ih b hb
        exact ⟨b', hb', hkb'.trans hkb⟩
      · exact ⟨a, List.mem_cons_self a _, rfl⟩
    · obtain ⟨b', hb', hkb'⟩ := ih a hat
      split
      · exact ⟨b', hb', hkb'⟩
      · exact ⟨b', List.mem_cons_of_mem c hb', hkb'⟩

theorem dedupLast_eq_self {l : List α} (hnd : (l.map key).Nodup) :
    dedupLast key l = l := by
  induction l with
  | nil => rfl
  | cons a t ih =>
    simp only [List.map_cons, List.nodup_cons] at hnd
    have hno : ¬ ∃ b ∈ t, key b = key a := by
      rintro ⟨b, hb, hkb⟩
      exact hnd.1 (hkb ▸ List.mem_map_of_mem key hb)
    simp only [dedupLast, if_neg hno]
    rw [ih hnd.2]

theorem dedupLast_filter_key (k : Value) (l : List α) :
    (dedupLast key l).filter (fun a => decide (key a = k)) =
      ((l.filter fun a => decide (key a = k)).getLast?).toList := by
  induction l with
  | nil => simp [dedupLast]
  | cons a t ih =>
    simp only [dedupLast]
    split
    · rename_i hdup
      rw [ih]
      by_cases hak : key a = k
      · obtain ⟨b, hb, hkb⟩ := hdup
        have hbf : b ∈ t.filter (fun a => decide (key a = k)) :=
          List.mem_filter.mpr ⟨hb, by simp [hkb, hak]⟩
        have hne : t.filter (fun a => decide (key a = k)) ≠ [] :=
          List.ne_nil_of_mem hbf
        rw [List.filter_cons_of_pos (by simpa using hak)]
        obtain ⟨c, u, hcu⟩ := List.exists_cons_of_ne_nil hne
        rw [hcu, List.getLast?_cons_cons]
      · rw [List.filter_cons_of_neg (by simpa using hak)]
    · rename_i hno
      by_cases hak : key a = k
      · have htf : t.filter (fun a => decide (key a = k)) = [] := by
          rw [List.filter_eq_nil_iff]
          intro b hb
          simp only [decide_eq_true_eq]
          intro hkb
          exact hno ⟨b, hb, hkb.trans hak.symm⟩
        rw [List.filter_cons_of_pos (by simpa using hak),
          List.filter_cons_of_pos (by simpa using hak), htf, ih, htf]
        rfl
      · rw [List.filter_cons_of_neg (by simpa using hak),
          List.filter_cons_of_neg (by simpa using hak), ih]

end DedupLemmas

section SortLemmas

theorem strLeB_refl (l : List Char) : strLeB l l = true := by
  induction l with
  | nil => rfl
  | cons a t ih => simp [strLeB, ih]

theorem strLeB_total (x y : List Char) : strLeB x y = true ∨ strLeB y x = true := by
  induction x generalizing y with
  | nil => exact Or.inl rfl
  | cons a as ih =>
    cases y with
    | nil => exact Or.inr rfl
    | cons b bs =>
      by_cases hab : a.toNat = b.toNat
      · rcases ih bs with h | h
        · exact Or.inl (by simp [strLeB, hab, h])
        · exact Or.inr (by simp [strLeB, hab.symm, h])
      · rcases Nat.lt_or_ge a.toNat b.toNat with h | h
        · exact Or.inl (by simp [strLeB, hab, h])
        · have hba : ¬ b.toNat = a.toNat := fun hh => hab hh.symm
          exact Or.inr (by simp [strLeB, hba]; omega)

theorem strLeB_trans {x y z : List Char} (hxy : strLeB x y = true)
    (hyz : strLeB y z = true) : strLeB x z = true := by
  induction x generalizing y z with
  | nil => rfl
  | cons a as ih =>
    cases y with
    | nil => cases hxy
    | cons b bs =>
      cases z with
      | nil => cases hyz
      | cons c cs =>
        simp only [strLeB] at hxy hyz ⊢
        by_cases hab : a.toNat = b.toNat <;> by_cases hbc : b.toNat = c.toNat
        · rw [if_pos (hab.trans hbc)]
          rw [if_pos hab] at hxy
          rw [if_pos hbc] at hyz
          exact ih hxy hyz
        · rw [if_pos hab] at hxy
          rw [if_neg hbc] at hyz
          have hac : ¬ a.toNat = c.toNat := by
            simp only [decide_eq_true_eq] at hyz
            omega
          rw [if_neg hac]
          simp only [decide_eq_true_eq] at hyz ⊢
          omega
        · rw [if_neg hab] at hxy
          rw [if_pos hbc] at hyz
          have hac : ¬ a.toNat = c.toNat := by
            simp only [decide_eq_true_eq] at hxy
            omega
          rw [if_neg hac]
          simp only [decide_eq_true_eq] at hxy ⊢
          omega
        · rw [if_neg hab] at hxy
          rw [if_neg hbc] at hyz
          simp only [decide_eq_true_eq] at hxy hyz
          have hac : ¬ a.toNat = c.toNat := by omega
          rw [if_neg hac]
          simp only [decide_eq_true_eq]
          omega

theorem vleB_refl (v : Value) : vleB v v = true := by
  cases v <;> simp [vleB, strLeB_refl]

theorem vleB_total (a b : Value) : vleB a b = true ∨ vleB b a = true := by
  cases a <;> cases b <;>
    simp only [vleB, vRank, decide_eq_true_eq, Bool.or_eq_true, Bool.not_eq_true'] <;>
    first
      | exact le_total _ _
      | exact strLeB_total _ _
      | omega
      | (rename_i x y; cases x <;> cases y <;> simp)
      | simp

theorem vleB_trans {a b c : Value} (hab : vleB a b = true) (hbc : vleB b c = true) :
    vleB a c = true := by
  cases a <;> cases b <;> cases c <;>
    simp_all only [vleB, vRank, decide_eq_true_eq, Bool.or_eq_true, Bool.not_eq_true'] <;>
    first
      | rfl
      | omega
      | exact le_trans hab hbc
      | exact strLeB_trans hab hbc
      | (rename_i x y z; cases x <;> cases y <;> cases z <;> simp_all)

variable {α : Type} (key : α → Value)

instance keyedRelTotal : IsTotal α fun a b => vleB (key a) (key b) = true :=
  ⟨fun a b => vleB_total (key a) (key b)⟩

instance keyedRelTrans : IsTrans α fun a b => vleB (key a) (key b) = true :=
  ⟨fun _ _ _ hab hbc => vleB_trans hab hbc⟩

theorem sortByKey_perm (l : List α) : (sortByKey key l).Perm l :=
  List.perm_insertionSort _ l

theorem mem_sortByKey {a : α} {l : List α} : a ∈ sortByKey key l ↔ a ∈ l :=
  (sortByKey_perm key l).mem_iff

theorem filter_orderedInsert_key (k : Value) (a : α) (l : List α) :
    (List.orderedInsert (fun x y => vleB (key x) (key y) = true) a l).filter
        (fun x => decide (key x = k)) =
      if key a = k then a :: l.filter (fun x => decide (key x = k))
      else l.filter (fun x => decide (key x = k)) := by
  induction l with
  | nil =>
    by_cases hak : key a = k <;> simp [List.orderedInsert, List.filter, hak]
  | cons b t ih =>
    simp only [List.orderedInsert]
    split
    · by_cases hak : key a = k <;> simp [List.filter_cons, hak]
    · rename_i hr
      by_cases hak : key a = k
      · have hbk : ¬ (key b = k) := by
          intro hbk
          exact hr (by rw [hak, hbk]; exact vleB_refl k)
        rw [List.filter_cons_of_neg (by simpa using hbk), ih,
          List.filter_cons_of_neg (by simpa using hbk)]
      · rw [List.filter_cons, ih]
        simp only [if_neg hak, List.filter_cons]

theorem filter_sortByKey_key (k : Value) (l : List α) :
    (sortByKey key l).filter (fun x => decide (key x = k)) =
      l.filter (fun x => decide (key x = k)) := by
  induction l with
  | nil => rfl
  | cons a t ih =>
    simp only [sortByKey, List.insertionSort] at ih ⊢
    rw [filter_orderedInsert_key, ih]
    by_cases hak : key a = k <;> simp [List.filter_cons, hak]

theorem sortByKey_sorted (l : List α) :
    List.Sorted (fun a b => vleB (key a) (key b) = true) (sortByKey key l) :=
  List.sorted_insertionSort _ l

theorem mem_of_mem_remover {l : List α} {a : α} (h : a ∈ remover_duplicatas key l) :
    a ∈ l :=
  (mem_sortByKey key).mp (List.Sublist.mem h (dedupLast_sublist key _))

theorem exists_key_mem_remover (l : List α) :
    ∀ a ∈ l, ∃ b ∈ remover_duplicatas key l, key b = key a := fun a ha =>
  exists_key_mem_dedupLast key _ a ((mem_sortByKey key).mpr ha)

theorem remover_keys_nodup (l : List α) :
    ((remover_duplicatas key l).map key).Nodup :=
  dedupLast_keys_nodup key _

theorem remover_filter_key (k : Value) (l : List α) :
    (remover_duplicatas key l).filter (fun x => decide (key x = k)) =
      ((l.filter fun x => decide (key x = k)).getLast?).toList := by
  rw [remover_duplicatas, dedupLast_filter_key, filter_sortByKey_key]

theorem remover_sorted (l : List α) :
    List.Sorted (fun a b => vleB (key a) (key b) = true) (remover_duplicatas key l) :=
  List.Pairwise.sublist (dedupLast_sublist key _) (sortByKey_sorted key l)

theorem remover_idem (l : List α) :
    remover_duplicatas key (remover_duplicatas key l) = remover_duplicatas key l := by
  have h1 : sortByKey key (remover_duplicatas key l) = remover_duplicatas key l :=
    List.Sorted.insertionSort_eq (remover_sorted key l)
  rw [remover_duplicatas, h1, dedupLast_eq_self key (remover_keys_nodup key l)]

end SortLemmas

/-! ### Lemmas about the cell transforms -/

theorem toDateV_vDate (d : Int) : toDateV (.vDate d) = .vDate d := rfl

theorem toDateV_shape (v : Value) :
    toDateV v = .vNull ∨ ∃ d, toDateV v = .vDate d := by
  unfold toDateV
  cases parseDateV v with
  | none => exact Or.inl rfl
  | some d => exact Or.inr ⟨d, rfl⟩

theorem toDateV_idem (v : Value) : toDateV (toDateV v) = toDateV v := by
  unfold toDateV
  cases parseDateV v <;> rfl

theorem toDateV_of_parse_none {v : Value} (h : parseDateV v = none) :
    toDateV v = .vNull := by
  unfold toDateV
  rw [h]

theorem toDateV_of_parse_some {v : Value} {d : Int} (h : parseDateV v = some d) :
    toDateV v = .vDate d := by
  unfold toDateV
  rw [h]

theorem decompChar_ascii {c : Char} (h : c.toNat < 128) : decompChar c = [c] := by
  simp [decompChar, h]

theorem mem_normalizeAscii_ascii {s : String} :
    ∀ c ∈ (normalizeAscii s).data, c.toNat < 128 := by
  intro c hc
  have : isAsciiChar c = true := List.of_mem_filter hc
  simpa [isAsciiChar] using this

theorem flatten_map_singleton {β : Type} (l : List β) :
    (l.map fun c => [c]).flatten = l := by
  induction l with
  | nil => rfl
  | cons a t ih => simp [ih]

theorem normalizeAscii_idem (s : String) :
    normalizeAscii (normalizeAscii s) = normalizeAscii s := by
  conv_lhs => rw [normalizeAscii]
  have h1 : (normalizeAscii s).data.map decompChar = (normalizeAscii s).data.map fun c => [c] :=
    List.map_congr_left fun c hc => decompChar_ascii (mem_normalizeAscii_ascii c hc)
  rw [h1, flatten_map_singleton,
    List.filter_eq_self.mpr fun c hc => by
      simpa [isAsciiChar] using mem_normalizeAscii_ascii c hc]

theorem normStrV_idem (v : Value) : normStrV (normStrV v) = normStrV v := by
  simp [normStrV, Value.pyStr, normalizeAscii_idem]

theorem lowerChar_toNat_of_upper {c : Char} (h : 65 ≤ c.toNat ∧ c.toNat ≤ 90) :
    (lowerChar c).toNat = c.toNat + 32 := by
  have hv : (c.toNat + 32).isValidChar := Or.inl (by omega)
  rw [lowerChar]
  split
  · simp only [Char.ofNat]
    split
    · rfl
    · rename_i hnv
      exact absurd hv hnv
  · rename_i hno
    exact absurd h hno

theorem lowerChar_not_upper (c : Char) :
    ¬(65 ≤ (lowerChar c).toNat ∧ (lowerChar c).toNat ≤ 90) := by
  by_cases h : 65 ≤ c.toNat ∧ c.toNat ≤ 90
  · rw [lowerChar_toNat_of_upper h]
    omega
  · rw [lowerChar, if_neg h]
    exact h

theorem lowerChar_idem (c : Char) : lowerChar (lowerChar c) = lowerChar c := by
  rw [lowerChar, if_neg (lowerChar_not_upper c)]

theorem dropWhile_head_false {β : Type} {p : β → Bool} {l t : List β} {a : β}
    (h : List.dropWhile p l = a :: t) : p a = false := by
  induction l with
  | nil => cases h
  | cons b u ih =>
    rw [List.dropWhile_cons] at h
    split at h
    · exact ih h
    · rename_i hpb
      injection h with h1 _
      rw [← h1]
      simpa using hpb

theorem dropWhile_idem {β : Type} (p : β → Bool) (l : List β) :
    List.dropWhile p (List.dropWhile p l) = List.dropWhile p l := by
  induction l with
  | nil => rfl
  | cons a t ih =>
    by_cases hpa : p a = true
    · simp [List.dropWhile_cons, hpa, ih]
    · simp [List.dropWhile_cons, hpa]

theorem trimChars_mem {cs : List Char} : ∀ c ∈ trimChars cs, c ∈ cs := by
  intro c hc
  rw [trimChars, List.mem_reverse] at hc
  have h1 := (List.dropWhile_suffix (l := (cs.dropWhile isSpaceChar).reverse)
    isSpaceChar).sublist.mem hc
  rw [List.mem_reverse] at h1
  exact (List.dropWhile_suffix isSpaceChar).sublist.mem h1

theorem trimChars_prefix (cs : List Char) :
    trimChars cs <+: cs.dropWhile isSpaceChar := by
  rw [trimChars]
  have h := List.dropWhile_suffix (l := (cs.dropWhile isSpaceChar).reverse) isSpaceChar
  have h2 := List.reverse_prefix.mpr h
  rwa [List.reverse_reverse] at h2

theorem trimChars_idem (cs : List Char) : trimChars (trimChars cs) = trimChars cs := by
  have hstep : List.dropWhile isSpaceChar (trimChars cs) = trimChars cs := by
    cases htc : trimChars cs with
    | nil => rfl
    | cons a t =>
      obtain ⟨u, hu⟩ := trimChars_prefix cs
      rw [htc] at hu
      have hpa : isSpaceChar a = false := dropWhile_head_false hu.symm
      simp [List.dropWhile_cons, hpa]
  have hrev : (trimChars cs).reverse =
      List.dropWhile isSpaceChar ((cs.dropWhile isSpaceChar).reverse) := by
    rw [trimChars, List.reverse_reverse]
  rw [trimChars, hstep, hrev, dropWhile_idem, ← hrev, List.reverse_reverse]

theorem lowerStripV_idem (v : Value) : lowerStripV (lowerStripV v) = lowerStripV v := by
  cases v with
  | vStr s =>
    have hmap : (trimChars (s.data.map lowerChar)).map lowerChar =
        trimChars (s.data.map lowerChar) := by
      apply map_eq_self_of_fixed
      intro c hc
      obtain ⟨b, _, hb⟩ := List.mem_map.mp (trimChars_mem c hc)
      rw [← hb, lowerChar_idem]
    show Value.vStr (String.mk (trimChars ((trimChars (s.data.map lowerChar)).map
      lowerChar))) = _
    rw [hmap, trimChars_idem]
    rfl
  | vNum n => rfl
  | vDate d => rfl
  | vBool b => rfl
  | vNull => rfl

theorem toBoolV_idem (v : Value) : toBoolV (toBoolV v) = toBoolV v := by
  cases v <;> rfl

theorem normTelefoneV_null : normTelefoneV .vNull = .vStr "00000000000" := by decide

theorem normTelefoneV_spec (v : Value) :
    ∃ s : String, normTelefoneV v = .vStr s ∧
      s.data.all Char.isDigit = true ∧
      11 ≤ s.length ∧
      (v.pyStr.data.filter Char.isDigit).length ≤ s.length ∧
      ∃ pre, s.data = pre ++ v.pyStr.data.filter Char.isDigit ∧
        ∀ c ∈ pre, c = '0' := by
  refine ⟨String.mk (padLeftZeros (v.pyStr.data.filter Char.isDigit)), rfl, ?_, ?_, ?_, ?_⟩
  · rw [List.all_eq_true]
    intro c hc
    rcases List.mem_append.mp hc with h | h
    · rw [List.eq_of_mem_replicate h]
      rfl
    · exact List.of_mem_filter h
  · show 11 ≤ (padLeftZeros (v.pyStr.data.filter Char.isDigit)).length
    rw [padLeftZeros, List.length_append, List.length_replicate]
    omega
  · show _ ≤ (padLeftZeros (v.pyStr.data.filter Char.isDigit)).length
    rw [padLeftZeros, List.length_append, List.length_replicate]
    omega
  · exact ⟨List.replicate (11 - (v.pyStr.data.filter Char.isDigit).length) '0', rfl,
      fun c hc => List.eq_of_mem_replicate hc⟩

theorem normTelefoneV_idem (v : Value) :
    normTelefoneV (normTelefoneV v) = normTelefoneV v := by
  obtain ⟨s, hs, hdig, hlen, -, -⟩ := normTelefoneV_spec v
  rw [hs]
  show Value.vStr (String.mk (padLeftZeros (s.data.filter Char.isDigit))) = _
  rw [List.filter_eq_self.mpr (List.all_eq_true.mp hdig)]
  have h0 : 11 - s.data.length = 0 := by
    have : s.length = s.data.length := rfl
    omega
  rw [padLeftZeros, h0]
  rfl

/-! ### Key bookkeeping helpers -/

theorem keys_map_of_preserve {α : Type} (key : α → Value) (f : α → α)
    (h : ∀ r, key (f r) = key r) (l : List α) : (l.map f).map key = l.map key := by
  rw [List.map_map]
  exact List.map_congr_left fun a _ => h a

theorem keys_nodup_filter {α : Type} (key : α → Value) (p : α → Bool) {l : List α}
    (h : (l.map key).Nodup) : ((l.filter p).map key).Nodup :=
  List.Nodup.sublist (List.Sublist.map key (List.filter_sublist l)) h

theorem keys_nodup_sublist {α : Type} (key : α → Value) {l m : List α}
    (hs : m.Sublist l) (h : (l.map key).Nodup) : (m.map key).Nodup :=
  List.Nodup.sublist (List.Sublist.map key hs) h

theorem keys_nodup_map {α : Type} (key : α → Value) (f : α → α)
    (h : ∀ r, key (f r) = key r) {l : List α}
    (hnd : (l.map key).Nodup) : ((l.map f).map key).Nodup := by
  rw [keys_map_of_preserve key f h l]
  exact hnd

/-! ### Row invariants established by the ingestion cleaners -/

/-- Shape of every row surviving `clean_clientes`: text fields are
normalization fixed points, the e-mail, nome/telefone and date filters
all pass, and the date cells are already parsed dates. -/
def ClienteClean (r : Cliente) : Prop :=
  normStrV r.nome = r.nome ∧ normStrV r.cidade = r.cidade ∧
  (r.email.notna && emailOkV r.email) = true ∧
  (r.nome.notna && r.telefone.notna) = true ∧
  toDateV r.data_nascimento = r.data_nascimento ∧
  toDateV r.data_cadastro = r.data_cadastro ∧
  (r.data_nascimento.notna && r.data_cadastro.notna) = true

theorem mem_clean_clientes {df : List Cliente} {r : Cliente}
    (hr : r ∈ clean_clientes df) : ClienteClean r := by
  simp only [clean_clientes] at hr
  obtain ⟨hr, hp3⟩ := List.mem_filter.mp hr
  obtain ⟨r0, hr0, rfl⟩ := List.mem_map.mp hr
  obtain ⟨hr0, hp2⟩ := List.mem_filter.mp hr0
  obtain ⟨hr0, hp1⟩ := List.mem_filter.mp hr0
  have hr1 := (dedupFirst_sublist _ _).mem hr0
  obtain ⟨r1, _, rfl⟩ := List.mem_map.mp hr1
  refine ⟨?_, ?_, ?_, ?_, ?_, ?_, ?_⟩
  · exact normStrV_idem r1.nome
  · exact normStrV_idem r1.cidade
  · exact hp1
  · exact hp2
  · exact toDateV_idem _
  · exact toDateV_idem _
  · exact hp3

theorem clean_clientes_keys_nodup (df : List Cliente) :
    ((clean_clientes df).map fun r => r.id_cliente).Nodup := by
  simp only [clean_clientes]
  apply keys_nodup_filter
  refine keys_nodup_map _ _ ?_ ?_
  · intro r
    rfl
  · apply keys_nodup_filter
    apply keys_nodup_filter
    exact dedupFirst_keys_nodup _ _

theorem clean_clientes_eq_self {df : List Cliente}
    (hinv : ∀ r ∈ df, ClienteClean r)
    (hnd : (df.map fun r => r.id_cliente).Nodup) :
    clean_clientes df = df := by
  simp only [clean_clientes]
  have h1 : (df.map fun r =>
      { r with nome := normStrV r.nome, cidade := normStrV r.cidade }) = df := by
    apply map_eq_self_of_fixed
    intro r hr
    rw [(hinv r hr).1, (hinv r hr).2.1]
  rw [h1, dedupFirst_eq_self _ hnd,
    List.filter_eq_self.mpr fun r hr => (hinv r hr).2.2.1,
    List.filter_eq_self.mpr fun r hr => (hinv r hr).2.2.2.1]
  have h2 : (df.map fun r =>
      { r with data_nascimento := toDateV r.data_nascimento,
               data_cadastro := toDateV r.data_cadastro }) = df := by
    apply map_eq_self_of_fixed
    intro r hr
    rw [(hinv r hr).2.2.2.2.1, (hinv r hr).2.2.2.2.2.1]
  rw [h2, List.filter_eq_self.mpr fun r hr => (hinv r hr).2.2.2.2.2.2]

theorem clean_clientes_idem (df : List Cliente) :
    clean_clientes (clean_clientes df) = clean_clientes df :=
  clean_clientes_eq_self (fun _ hr => mem_clean_clientes hr) (clean_clientes_keys_nodup df)

/-- Shape of every row surviving `clean_clientes_lab`. -/
def ClienteLabClean (r : ClienteLab) : Prop :=
  normStrV r.nome = r.nome ∧
  (r.email.notna && emailOkV r.email) = true ∧
  (r.idade.notna && r.idade.numGe 0 && r.idade.numLt 120) = true ∧
  r.status.notna = true ∧
  toDateV r.data_cadastro = r.data_cadastro ∧
  r.data_cadastro.notna = true

theorem mem_clean_clientes_lab {df : List ClienteLab} {r : ClienteLab}
    (hr : r ∈ clean_clientes_lab df) : ClienteLabClean r := by
  simp only [clean_clientes_lab] at hr
  obtain ⟨hr, hp4⟩ := List.mem_filter.mp hr
  obtain ⟨r0, hr0, rfl⟩ := List.mem_map.mp hr
  obtain ⟨hr0, hp3⟩ := List.mem_filter.mp hr0
  obtain ⟨hr0, hp2⟩ := List.mem_filter.mp hr0
  obtain ⟨hr0, hp1⟩ := List.mem_filter.mp hr0
  have hr1 := (dedupFirst_sublist _ _).mem hr0
  obtain ⟨r1, _, rfl⟩ := List.mem_map.mp hr1
  exact ⟨normStrV_idem r1.nome, hp1, hp2, hp3, toDateV_idem _, hp4⟩

theorem clean_clientes_lab_keys_nodup (df : List ClienteLab) :
    ((clean_clientes_lab df).map fun r => r.id_cliente).Nodup := by
  simp only [clean_clientes_lab]
  apply keys_nodup_filter
  refine keys_nodup_map _ _ ?_ ?_
  · intro r
    rfl
  · apply keys_nodup_filter
    apply keys_nodup_filter
    apply keys_nodup_filter
    exact dedupFirst_keys_nodup _ _

theorem clean_clientes_lab_eq_self {df : List ClienteLab}
    (hinv : ∀ r ∈ df, ClienteLabClean r)
    (hnd : (df.map fun r => r.id_cliente).Nodup) :
    clean_clientes_lab df = df := by
  simp only [clean_clientes_lab]
  have h1 : (df.map fun r => { r with nome := normStrV r.nome }) = df := by
    apply map_eq_self_of_fixed
    intro r hr
    rw [(hinv r hr).1]
  rw [h1, dedupFirst_eq_self _ hnd,
    List.filter_eq_self.mpr fun r hr => (hinv r hr).2.1,
    List.filter_eq_self.mpr fun r hr => (hinv r hr).2.2.1,
    List.filter_eq_self.mpr fun r hr => (hinv r hr).2.2.2.1]
  have h2 : (df.map fun r => { r with data_cadastro := toDateV r.data_cadastro }) = df := by
    apply map_eq_self_of_fixed
    intro r hr
    rw [(hinv r hr).2.2.2.2.1]
  rw [h2, List.filter_eq_self.mpr fun r hr => (hinv r hr).2.2.2.2.2]

theorem clean_clientes_lab_idem (df : List ClienteLab) :
    clean_clientes_lab (clean_clientes_lab df) = clean_clientes_lab df :=
  clean_clientes_lab_eq_self (fun _ hr => mem_clean_clientes_lab hr)
    (clean_clientes_lab_keys_nodup df)

/-- Shape of every row surviving `clean_produtos`. -/
def ProdutoClean (r : Produto) : Prop :=
  normStrV r.nome_produto = r.nome_produto ∧ normStrV r.categoria = r.categoria ∧
  r.preco.numGe 0 = true ∧ r.estoque.numGe 0 = true ∧
  toDateV r.data_criacao = r.data_criacao ∧ r.data_criacao.notna = true ∧
  toBoolV r.ativo = r.ativo

theorem mem_clean_produtos {df : List Produto} {r : Produto}
    (hr : r ∈ clean_produtos df) : ProdutoClean r := by
  simp only [clean_produtos] at hr
  obtain ⟨r0, hr0, rfl⟩ := List.mem_map.mp hr
  obtain ⟨hr0, hp3⟩ := List.mem_filter.mp hr0
  obtain ⟨r1, hr1, rfl⟩ := List.mem_map.mp hr0
  obtain ⟨hr1, hp2⟩ := List.mem_filter.mp hr1
  obtain ⟨hr1, hp1⟩ := List.mem_filter.mp hr1
  have hr2 := (dedupFirst_sublist _ _).mem hr1
  obtain ⟨r2, _, rfl⟩ := List.mem_map.mp hr2
  exact ⟨normStrV_idem r2.nome_produto, normStrV_idem r2.categoria, hp1, hp2,
    toDateV_idem _, hp3, toBoolV_idem _⟩

theorem clean_produtos_keys_nodup (df : List Produto) :
    ((clean_produtos df).map fun r => r.id_produto).Nodup := by
  simp only [clean_produtos]
  refine keys_nodup_map _ _ ?_ ?_
  · intro r
    rfl
  · apply keys_nodup_filter
    refine keys_nodup_map _ _ ?_ ?_
    · intro r
      rfl
    · apply keys_nodup_filter
      apply keys_nodup_filter
      exact dedupFirst_keys_nodup _ _

theorem clean_produtos_eq_self {df : List Produto}
    (hinv : ∀ r ∈ df, ProdutoClean r)
    (hnd : (df.map fun r => r.id_produto).Nodup) :
    clean_produtos df = df := by
  simp only [clean_produtos]
  have h1 : (df.map fun r =>
      { r with nome_produto := normStrV r.nome_produto,
               categoria := normStrV r.categoria }) = df := by
    apply map_eq_self_of_fixed
    intro r hr
    rw [(hinv r hr).1, (hinv r hr).2.1]
  rw [h1, dedupFirst_eq_self _ hnd,
    List.filter_eq_self.mpr fun r hr => (hinv r hr).2.2.1,
    List.filter_eq_self.mpr fun r hr => (hinv r hr).2.2.2.1]
  have h2 : (df.map fun r => { r with data_criacao := toDateV r.data_criacao }) = df := by
    apply map_eq_self_of_fixed
    intro r hr
    rw [(hinv r hr).2.2.2.2.1]
  rw [h2, List.filter_eq_self.mpr fun r hr => (hinv r hr).2.2.2.2.2.1]
  apply map_eq_self_of_fixed
  intro r hr
  rw [(hinv r hr).2.2.2.2.2.2]

theorem clean_produtos_idem (df : List Produto) :
    clean_produtos (clean_produtos df) = clean_produtos df :=
  clean_produtos_eq_self (fun _ hr => mem_clean_produtos hr) (clean_produtos_keys_nodup df)

/-- Shape of every row surviving `clean_vendas` relative to the parent
key sets it was called with. -/
def VendaClean (cids pids : List Value) (r : Venda) : Prop :=
  isinV r.id_cliente cids = true ∧ isinV r.id_produto pids = true ∧
  r.quantidade.numGt 0 = true ∧ r.valor_unitario.numGe 0 = true ∧
  r.valor_total.numGe 0 = true ∧ toDateV r.data_venda = r.data_venda ∧
  r.data_venda.notna = true

theorem mem_clean_vendas {df : List Venda} {cids pids : List Value} {r : Venda}
    (hr : r ∈ clean_vendas df cids pids) : VendaClean cids pids r := by
  simp only [clean_vendas] at hr
  obtain ⟨hr, hp6⟩ := List.mem_filter.mp hr
  obtain ⟨r0, hr0, rfl⟩ := List.mem_map.mp hr
  obtain ⟨hr0, hp5⟩ := List.mem_filter.mp hr0
  obtain ⟨hr0, hp4⟩ := List.mem_filter.mp hr0
  obtain ⟨hr0, hp3⟩ := List.mem_filter.mp hr0
  obtain ⟨hr0, hp2⟩ := List.mem_filter.mp hr0
  obtain ⟨hr0, hp1⟩ := List.mem_filter.mp hr0
  exact ⟨hp1, hp2, hp3, hp4, hp5, toDateV_idem _, hp6⟩

theorem clean_vendas_keys_nodup (df : List Venda) (cids pids : List Value) :
    ((clean_vendas df cids pids).map fun r => r.id_venda).Nodup := by
  simp only [clean_vendas]
  apply keys_nodup_filter
  refine keys_nodup_map _ _ ?_ ?_
  · intro r
    rfl
  · apply keys_nodup_filter
    apply keys_nodup_filter
    apply keys_nodup_filter
    apply keys_nodup_filter
    apply keys_nodup_filter
    exact dedupFirst_keys_nodup _ _

theorem clean_vendas_eq_self {df : List Venda} {cids pids : List Value}
    (hinv : ∀ r ∈ df, VendaClean cids pids r)
    (hnd : (df.map fun r => r.id_venda).Nodup) :
    clean_vendas df cids pids = df := by
  simp only [clean_vendas]
  rw [dedupFirst_eq_self _ hnd,
    List.filter_eq_self.mpr fun r hr => (hinv r hr).1,
    List.filter_eq_self.mpr fun r hr => (hinv r hr).2.1,
    List.filter_eq_self.mpr fun r hr => (hinv r hr).2.2.1,
    List.filter_eq_self.mpr fun r hr => (hinv r hr).2.2.2.1,
    List.filter_eq_self.mpr fun r hr => (hinv r hr).2.2.2.2.1]
  have h2 : (df.map fun r => { r with data_venda := toDateV r.data_venda }) = df := by
    apply map_eq_self_of_fixed
    intro r hr
    rw [(hinv r hr).2.2.2.2.2.1]
  rw [h2, List.filter_eq_self.mpr fun r hr => (hinv r hr).2.2.2.2.2.2]

theorem clean_vendas_idem (df : List Venda) (cids pids : List Value) :
    clean_vendas (clean_vendas df cids pids) cids pids = clean_vendas df cids pids :=
  clean_vendas_eq_self (fun _ hr => mem_clean_vendas hr) (clean_vendas_keys_nodup df cids pids)

/-- Shape of every row surviving `clean_logistica` relative to the sale
key set it was called with: the foreign key is valid and the three date
cells are parsed dates or missing (never unparsed strings), but no row
is dropped for a missing date. -/
def LogisticaClean (vids : List Value) (r : Logistica) : Prop :=
  isinV r.id_venda vids = true ∧
  toDateV r.data_envio = r.data_envio ∧
  toDateV r.data_entrega_prevista = r.data_entrega_prevista ∧
  toDateV r.data_entrega_real = r.data_entrega_real

theorem mem_clean_logistica {df : List Logistica} {vids : List Value} {r : Logistica}
    (hr : r ∈ clean_logistica df vids) : LogisticaClean vids r := by
  simp only [clean_logistica] at hr
  obtain ⟨r0, hr0, rfl⟩ := List.mem_map.mp hr
  obtain ⟨hr0, hp1⟩ := List.mem_filter.mp hr0
  exact ⟨hp1, toDateV_idem _, toDateV_idem _, toDateV_idem _⟩

theorem clean_logistica_keys_nodup (df : List Logistica) (vids : List Value) :
    ((clean_logistica df vids).map fun r => r.id_entrega).Nodup := by
  simp only [clean_logistica]
  refine keys_nodup_map _ _ ?_ ?_
  · intro r
    rfl
  · apply keys_nodup_filter
    exact dedupFirst_keys_nodup _ _

theorem clean_logistica_eq_self {df : List Logistica} {vids : List Value}
    (hinv : ∀ r ∈ df, LogisticaClean vids r)
    (hnd : (df.map fun r => r.id_entrega).Nodup) :
    clean_logistica df vids = df := by
  simp only [clean_logistica]
  rw [dedupFirst_eq_self _ hnd,
    List.filter_eq_self.mpr fun r hr => (hinv r hr).1]
  apply map_eq_self_of_fixed
  intro r hr
  rw [(hinv r hr).2.1, (hinv r hr).2.2.1, (hinv r hr).2.2.2]

theorem clean_logistica_idem (df : List Logistica) (vids : List Value) :
    clean_logistica (clean_logistica df vids) vids = clean_logistica df vids :=
  clean_logistica_eq_self (fun _ hr => mem_clean_logistica hr)
    (clean_logistica_keys_nodup df vids)

/-! ### Correction-stage lemmas -/

theorem padronizar_clientes_idem (df : List Cliente) :
    padronizar_dados_clientes (padronizar_dados_clientes df) =
      padronizar_dados_clientes df := by
  simp only [padronizar_dados_clientes, List.map_map]
  refine List.map_congr_left fun r _ => ?_
  simp [Function.comp, toDateV_idem, normTelefoneV_idem, lowerStripV_idem]

theorem padronizar_clientes_lab_idem (df : List ClienteLab) :
    padronizar_dados_clientes_lab (padronizar_dados_clientes_lab df) =
      padronizar_dados_clientes_lab df := by
  simp only [padronizar_dados_clientes_lab, List.map_map]
  refine List.map_congr_left fun r _ => ?_
  simp [Function.comp, toDateV_idem, lowerStripV_idem]

theorem padronizar_produtos_idem (df : List Produto) :
    padronizar_dados_produtos (padronizar_dados_produtos df) =
      padronizar_dados_produtos df := by
  simp only [padronizar_dados_produtos, List.map_map]
  refine List.map_congr_left fun r _ => ?_
  simp [Function.comp, toDateV_idem]

theorem padronizar_vendas_idem (df : List Venda) :
    padronizar_dados_vendas (padronizar_dados_vendas df) =
      padronizar_dados_vendas df := by
  simp only [padronizar_dados_vendas, List.map_map]
  refine List.map_congr_left fun r _ => ?_
  simp [Function.comp, toDateV_idem]

theorem padronizar_logistica_idem (df : List Logistica) :
    padronizar_dados_logistica (padronizar_dados_logistica df) =
      padronizar_dados_logistica df := by
  simp only [padronizar_dados_logistica, List.map_map]
  refine List.map_congr_left fun r _ => ?_
  simp [Function.comp, toDateV_idem]

theorem mem_processar_clientes {df : List Cliente} {r : Cliente}
    (hr : r ∈ processar_clientes df) : ∃ r0 ∈ df, r.id_cliente = r0.id_cliente := by
  simp only [processar_clientes, preencher_clientes] at hr
  obtain ⟨r1, hr1, rfl⟩ := List.mem_map.mp hr
  have hr2 := mem_of_mem_remover _ hr1
  simp only [padronizar_dados_clientes] at hr2
  obtain ⟨r2, hr3, rfl⟩ := List.mem_map.mp hr2
  exact ⟨r2, hr3, rfl⟩

theorem exists_key_processar_clientes {df : List Cliente} :
    ∀ r0 ∈ df, ∃ r ∈ processar_clientes df, r.id_cliente = r0.id_cliente := by
  intro r0 h0
  simp only [processar_clientes, preencher_clientes, padronizar_dados_clientes]
  have hp := List.mem_map_of_mem (fun r : Cliente =>
    { r with data_nascimento := toDateV r.data_nascimento,
             data_cadastro := toDateV r.data_cadastro,
             telefone := normTelefoneV r.telefone,
             email := lowerStripV r.email }) h0
  obtain ⟨b, hb, hkb⟩ := exists_key_mem_remover (fun r => r.id_cliente) _ _ hp
  exact ⟨_, List.mem_map_of_mem _ hb, hkb⟩

theorem processar_clientes_keys_nodup (df : List Cliente) :
    ((processar_clientes df).map fun r => r.id_cliente).Nodup := by
  simp only [processar_clientes, preencher_clientes]
  refine keys_nodup_map _ _ ?_ ?_
  · intro r
    rfl
  · exact remover_keys_nodup _ _

theorem mem_processar_clientes_lab {df : List ClienteLab} {r : ClienteLab}
    (hr : r ∈ processar_clientes_lab df) : ∃ r0 ∈ df, r.id_cliente = r0.id_cliente := by
  simp only [processar_clientes_lab] at hr
  have hr2 := mem_of_mem_remover _ hr
  simp only [padronizar_dados_clientes_lab] at hr2
  obtain ⟨r2, hr3, rfl⟩ := List.mem_map.mp hr2
  exact ⟨r2, hr3, rfl⟩

theorem processar_clientes_lab_keys_nodup (df : List ClienteLab) :
    ((processar_clientes_lab df).map fun r => r.id_cliente).Nodup :=
  remover_keys_nodup _ _

theorem mem_processar_produtos {df : List Produto} {r : Produto}
    (hr : r ∈ processar_produtos df) :
    ∃ r0 ∈ df, r.id_produto = r0.id_produto ∧ r.preco = r0.preco ∧
      r.estoque = r0.estoque := by
  simp only [processar_produtos, preencher_produtos] at hr
  obtain ⟨r1, hr1, rfl⟩ := List.mem_map.mp hr
  have hr2 := mem_of_mem_remover _ hr1
  simp only [padronizar_dados_produtos] at hr2
  obtain ⟨r2, hr3, rfl⟩ := List.mem_map.mp hr2
  exact ⟨r2, hr3, rfl, rfl, rfl⟩

theorem exists_key_processar_produtos {df : List Produto} :
    ∀ r0 ∈ df, ∃ r ∈ processar_produtos df, r.id_produto = r0.id_produto := by
  intro r0 h0
  simp only [processar_produtos, preencher_produtos, padronizar_dados_produtos]
  have hp := List.mem_map_of_mem (fun r : Produto =>
    { r with data_criacao := toDateV r.data_criacao }) h0
  obtain ⟨b, hb, hkb⟩ := exists_key_mem_remover (fun r => r.id_produto) _ _ hp
  exact ⟨_, List.mem_map_of_mem _ hb, hkb⟩

theorem processar_produtos_keys_nodup (df : List Produto) :
    ((processar_produtos df).map fun r => r.id_produto).Nodup := by
  simp only [processar_produtos, preencher_produtos]
  refine keys_nodup_map _ _ ?_ ?_
  · intro r
    rfl
  · exact remover_keys_nodup _ _

theorem mem_processar_vendas {df : List Venda} {r : Venda}
    (hr : r ∈ processar_vendas df) :
    ∃ r0 ∈ df, r.id_venda = r0.id_venda ∧ r.id_cliente = r0.id_cliente ∧
      r.id_produto = r0.id_produto ∧ r.quantidade = r0.quantidade := by
  simp only [processar_vendas, preencher_vendas] at hr
  obtain ⟨r1, hr1, rfl⟩ := List.mem_map.mp hr
  have hr2 := mem_of_mem_remover _ hr1
  simp only [padronizar_dados_vendas] at hr2
  obtain ⟨r2, hr3, rfl⟩ := List.mem_map.mp hr2
  exact ⟨r2, hr3, rfl, rfl, rfl, rfl⟩

theorem exists_key_processar_vendas {df : List Venda} :
    ∀ r0 ∈ df, ∃ r ∈ processar_vendas df, r.id_venda = r0.id_venda := by
  intro r0 h0
  simp only [processar_vendas, preencher_vendas, padronizar_dados_vendas]
  have hp := List.mem_map_of_mem (fun r : Venda =>
    { r with data_venda := toDateV r.data_venda }) h0
  obtain ⟨b, hb, hkb⟩ := exists_key_mem_remover (fun r => r.id_venda) _ _ hp
  exact ⟨_, List.mem_map_of_mem _ hb, hkb⟩

theorem processar_vendas_keys_nodup (df : List Venda) :
    ((processar_vendas df).map fun r => r.id_venda).Nodup := by
  simp only [processar_vendas, preencher_vendas]
  refine keys_nodup_map _ _ ?_ ?_
  · intro r
    rfl
  · exact remover_keys_nodup _ _

theorem mem_processar_logistica {df : List Logistica} {r : Logistica}
    (hr : r ∈ processar_logistica df) :
    ∃ r0 ∈ df, r.id_entrega = r0.id_entrega ∧ r.id_venda = r0.id_venda ∧
      r.data_envio = toDateV r0.data_envio ∧
      r.data_entrega_prevista = toDateV r0.data_entrega_prevista ∧
      r.data_entrega_real = toDateV r0.data_entrega_real := by
  simp only [processar_logistica, preencher_logistica] at hr
  obtain ⟨r1, hr1, rfl⟩ := List.mem_map.mp hr
  have hr2 := mem_of_mem_remover _ hr1
  simp only [padronizar_dados_logistica] at hr2
  obtain ⟨r2, hr3, rfl⟩ := List.mem_map.mp hr2
  exact ⟨r2, hr3, rfl, rfl, rfl, rfl, rfl⟩

theorem processar_logistica_keys_nodup (df : List Logistica) :
    ((processar_logistica df).map fun r => r.id_entrega).Nodup := by
  simp only [processar_logistica, preencher_logistica]
  refine keys_nodup_map _ _ ?_ ?_
  · intro r
    rfl
  · exact remover_keys_nodup _ _

/-! ### Small value-shape helpers -/

theorem numGe_spec {v : Value} {n : Int} (h : v.numGe n = true) :
    ∃ m, v = .vNum m ∧ n ≤ m := by
  cases v with
  | vNum m => exact ⟨m, rfl, by simpa [Value.numGe] using h⟩
  | vStr s => simp [Value.numGe] at h
  | vDate d => simp [Value.numGe] at h
  | vBool b => simp [Value.numGe] at h
  | vNull => simp [Value.numGe] at h

theorem numGt_spec {v : Value} {n : Int} (h : v.numGt n = true) :
    ∃ m, v = .vNum m ∧ n < m := by
  cases v with
  | vNum m => exact ⟨m, rfl, by simpa [Value.numGt] using h⟩
  | vStr s => simp [Value.numGt] at h
  | vDate d => simp [Value.numGt] at h
  | vBool b => simp [Value.numGt] at h
  | vNull => simp [Value.numGt] at h

theorem isDate_of_fixed_notna {v : Value} (hfix : toDateV v = v)
    (hn : v.notna = true) : ∃ d, v = .vDate d := by
  rcases toDateV_shape v with h | ⟨d, h⟩
  · rw [hfix] at h
    rw [h] at hn
    cases hn
  · exact ⟨d, by rw [← hfix, h]⟩

theorem dateOrNull_of_fixed {v : Value} (hfix : toDateV v = v) :
    v = .vNull ∨ ∃ d, v = .vDate d := by
  rcases toDateV_shape v with h | ⟨d, h⟩
  · exact Or.inl (by rw [← hfix, h])
  · exact Or.inr ⟨d, by rw [← hfix, h]⟩

theorem vltDate_false {a b : Value} (h : Value.vltDate a b = false) :
    ∀ x y, a = .vDate x → b = .vDate y → y ≤ x := by
  intro x y hx hy
  rw [hx, hy] at h
  simp [Value.vltDate] at h
  omega

/-! ### Sample data used to exercise the theorems on concrete inputs -/

/-- Sample customer row passing every filter of `clean_clientes`. -/
def cli1 : Cliente :=
  { id_cliente := .vStr "C1", nome := .vStr "Ana", email := .vStr "a@b.com",
    telefone := .vStr "11999999999", data_nascimento := .vStr "1990-01-01",
    data_cadastro := .vStr "2020-01-01", cidade := .vStr "Sao Paulo",
    estado := .vStr "SP" }

/-- Sample lab-customer row passing every filter of `clean_clientes_lab`. -/
def lab1 : ClienteLab :=
  { id_cliente := .vStr "C1", nome := .vStr "Ana", email := .vStr "a@b.com",
    idade := .vNum 30, status := .vStr "ativo", data_cadastro := .vStr "2020-01-01" }

/-- Sample product row passing every filter of `clean_produtos`. -/
def prod1 : Produto :=
  { id_produto := .vStr "P1", nome_produto := .vStr "TV", categoria := .vStr "Eletro",
    preco := .vNum 10, estoque := .vNum 5, data_criacao := .vStr "2021-01-01",
    ativo := .vBool true }

/-- Sample sale row referencing `cli1` and `prod1`. -/
def venda1 : Venda :=
  { id_venda := .vStr "V1", id_cliente := .vStr "C1", id_produto := .vStr "P1",
    quantidade := .vNum 2, valor_unitario := .vNum 10, valor_total := .vNum 20,
    data_venda := .vStr "2024-01-02", status := .vNull }

/-- Sample logistics row referencing `venda1`, shipped 2024-01-10 but
with actual delivery recorded as 2024-01-05 (the temporal violation of
the spec scenario). -/
def log1 : Logistica :=
  { id_entrega := .vStr "E1", id_venda := .vStr "V1",
    data_envio := .vStr "2024-01-10", data_entrega_prevista := .vStr "2024-01-12",
    data_entrega_real := .vStr "2024-01-05", status_entrega := .vNull }

/-- Sample raw extract with one row per entity. -/
def sampleRaw : RawData := ⟨[cli1], [lab1], [prod1], [venda1], [log1]⟩

/-- Parsed version of `log1`, as the repair step sees it after date
standardization: shipped 2024-01-10, delivered 2024-01-05. -/
def log1p : Logistica :=
  { log1 with data_envio := toDateV (.vStr "2024-01-10"),
              data_entrega_prevista := toDateV (.vStr "2024-01-12"),
              data_entrega_real := toDateV (.vStr "2024-01-05") }

/-- Second customer row sharing id "C1" with `cli1` but with a different
name (the dedup scenario of the spec). -/
def cli1B : Cliente := { cli1 with nome := .vStr "Beatriz" }

/-- Customer row with a missing phone. -/
def cliNullPhone : Cliente := { cli1 with telefone := .vNull }

/-- Logistics row whose actual-delivery date does not parse. -/
def logBad : Logistica := { log1 with data_entrega_real := .vStr "not-a-date" }

/-- The row `cli1` as it appears in the cleaned clientes output, its two
date cells parsed. -/
def cli1c : Cliente :=
  { cli1 with data_nascimento := .vDate 19900101, data_cadastro := .vDate 20200101 }

/-- The row `prod1` as it appears in both cleaned produtos outputs. -/
def prod1c : Produto := { prod1 with data_criacao := .vDate 20210101 }

/-- The row `log1` as it appears in the corrected logistica output:
dates parsed, the violating delivery date nulled by the repair and the
missing delivery status filled. -/
def log1co : Logistica :=
  { log1 with data_envio := .vDate 20240110, data_entrega_prevista := .vDate 20240112,
              data_entrega_real := .vNull, status_entrega := .vStr "Em trânsito" }

/-! ### Claims -/

/-- C2: for every Logistics row whose actual delivery date precedes its
ship date, `corrigir_inconsistencias` keeps the row in the output at its
position (the table length is unchanged), sets only the actual delivery
date field to the null marker and leaves every other field, the ship
date included, unchanged. -/
theorem C2_repair_not_drop (vendas : List Venda) (logistica : List Logistica)
    (i : Nat) (h : i < logistica.length) (e d : Int)
    (henv : (logistica.get ⟨i, h⟩).data_envio = .vDate e)
    (hreal : (logistica.get ⟨i, h⟩).data_entrega_real = .vDate d)
    (hlt : d < e) :
    ∃ h2 : i < (corrigir_inconsistencias vendas logistica).2.length,
      (corrigir_inconsistencias vendas logistica).2.length = logistica.length ∧
      (corrigir_inconsistencias vendas logistica).2.get ⟨i, h2⟩ =
        { logistica.get ⟨i, h⟩ with data_entrega_real := .vNull } := by
  have hlen : (corrigir_inconsistencias vendas logistica).2.length = logistica.length := by
    simp [corrigir_inconsistencias]
  refine ⟨by omega, hlen, ?_⟩
  have hc : Value.vltDate (logistica.get ⟨i, h⟩).data_entrega_real
      (logistica.get ⟨i, h⟩).data_envio = true := by
    rw [hreal, henv]
    simp [Value.vltDate, hlt]
  simp only [corrigir_inconsistencias, List.get_eq_getElem, List.getElem_map]
  rw [if_pos (by simpa using hc)]

/-- Witness for C2: the spec scenario, ship date 2024-01-10 and delivery
date 2024-01-05; the output row keeps the ship date and has a null
delivery date. -/
theorem C2_repair_not_drop_witness :
    ∃ h2 : 0 < (corrigir_inconsistencias [] [log1p]).2.length,
      (corrigir_inconsistencias [] [log1p]).2.length = [log1p].length ∧
      (corrigir_inconsistencias [] [log1p]).2.get ⟨0, h2⟩ =
        { [log1p].get ⟨0, by decide⟩ with data_entrega_real := .vNull } :=
  C2_repair_not_drop [] [log1p] 0 (by decide) 20240110 20240105
    (by decide) (by decide) (by decide)

/-- C9: `corrigir_inconsistencias` returns the vendas table completely
unchanged, keeps the logistica row count, and in logistica changes only
the data_entrega_real field of rows violating the temporal rule: every
other field of every row is identical, a non-violating row is returned
verbatim, and a violating row differs only in that one field. -/
theorem C9_frame (vendas : List Venda) (logistica : List Logistica) :
    (corrigir_inconsistencias vendas logistica).1 = vendas ∧
    (corrigir_inconsistencias vendas logistica).2.length = logistica.length ∧
    ∀ (i : Nat) (h : i < logistica.length),
      ∃ h2 : i < (corrigir_inconsistencias vendas logistica).2.length,
        ((corrigir_inconsistencias vendas logistica).2.get ⟨i, h2⟩).id_entrega =
          (logistica.get ⟨i, h⟩).id_entrega ∧
        ((corrigir_inconsistencias vendas logistica).2.get ⟨i, h2⟩).id_venda =
          (logistica.get ⟨i, h⟩).id_venda ∧
        ((corrigir_inconsistencias vendas logistica).2.get ⟨i, h2⟩).data_envio =
          (logistica.get ⟨i, h⟩).data_envio ∧
        ((corrigir_inconsistencias vendas logistica).2.get ⟨i, h2⟩).data_entrega_prevista =
          (logistica.get ⟨i, h⟩).data_entrega_prevista ∧
        ((corrigir_inconsistencias vendas logistica).2.get ⟨i, h2⟩).status_entrega =
          (logistica.get ⟨i, h⟩).status_entrega ∧
        (Value.vltDate (logistica.get ⟨i, h⟩).data_entrega_real
            (logistica.get ⟨i, h⟩).data_envio = false →
          (corrigir_inconsistencias vendas logistica).2.get ⟨i, h2⟩ =
            logistica.get ⟨i, h⟩) ∧
        (Value.vltDate (logistica.get ⟨i, h⟩).data_entrega_real
            (logistica.get ⟨i, h⟩).data_envio = true →
          (corrigir_inconsistencias vendas logistica).2.get ⟨i, h2⟩ =
            { logistica.get ⟨i, h⟩ with data_entrega_real := .vNull }) := by
  refine ⟨rfl, by simp [corrigir_inconsistencias], ?_⟩
  intro i h
  refine ⟨by simp [corrigir_inconsistencias]; omega, ?_⟩
  simp only [corrigir_inconsistencias, List.get_eq_getElem, List.getElem_map]
  split
  · rename_i hc
    refine ⟨rfl, rfl, rfl, rfl, rfl, ?_, fun _ => rfl⟩
    intro hf
    rw [hc] at hf
    cases hf
  · rename_i hc
    exact ⟨rfl, rfl, rfl, rfl, rfl, fun _ => rfl,
      fun ht => absurd ht hc⟩

/-- Witness for C9: on the sample tables, vendas comes back unchanged
and the repaired violating row keeps its ship date and sale id. -/
theorem C9_frame_witness :
    (corrigir_inconsistencias [venda1] [log1p]).1 = [venda1] ∧
    ∃ h2 : 0 < (corrigir_inconsistencias [venda1] [log1p]).2.length,
      ((corrigir_inconsistencias [venda1] [log1p]).2.get ⟨0, h2⟩).data_envio =
        ([log1p].get ⟨0, by decide⟩).data_envio ∧
      ((corrigir_inconsistencias [venda1] [log1p]).2.get ⟨0, h2⟩).id_venda =
        ([log1p].get ⟨0, by decide⟩).id_venda := by
  obtain ⟨h1, -, hall⟩ := C9_frame [venda1] [log1p]
  obtain ⟨h2, hfr⟩ := hall 0 (by decide)
  exact ⟨h1, h2, hfr.2.2.1, hfr.2.1⟩

/-- C10: the phone rule of `padronizar_dados` always produces a
digits-only string of length at least 11 that still contains all the
digits of the original value (shorter runs are left-padded with zeros,
longer ones are not truncated), a missing phone becomes the string
"00000000000" rather than staying null, and the telefone column of a
standardized clientes table is exactly this rule applied row by row. -/
theorem C10_phone_normalization :
    (∀ v : Value, ∃ s : String, normTelefoneV v = .vStr s ∧
        s.data.all Char.isDigit = true ∧ 11 ≤ s.length ∧
        ∃ pre, s.data = pre ++ v.pyStr.data.filter Char.isDigit ∧
          ∀ c ∈ pre, c = '0') ∧
    normTelefoneV .vNull = .vStr "00000000000" ∧
    ∀ (df : List Cliente) (i : Nat) (h : i < df.length),
      ∃ h2 : i < (padronizar_dados_clientes df).length,
        ((padronizar_dados_clientes df).get ⟨i, h2⟩).telefone =
          normTelefoneV ((df.get ⟨i, h⟩).telefone) := by
  refine ⟨?_, normTelefoneV_null, ?_⟩
  · intro v
    obtain ⟨s, hs, hdig, hlen, -, pre, hpre, hz⟩ := normTelefoneV_spec v
    exact ⟨s, hs, hdig, hlen, pre, hpre, hz⟩
  · intro df i h
    refine ⟨by simp [padronizar_dados_clientes]; omega, ?_⟩
    simp only [padronizar_dados_clientes, List.get_eq_getElem, List.getElem_map]

/-- Witness for C10: a formatted phone keeps all 11 digits, and the
missing phone of a concrete row becomes "00000000000". -/
theorem C10_phone_normalization_witness :
    (∃ s : String, normTelefoneV (.vStr "(11) 98765-4321") = .vStr s ∧
        s.data.all Char.isDigit = true ∧ 11 ≤ s.length ∧
        ∃ pre, s.data = pre ++ (Value.vStr "(11) 98765-4321").pyStr.data.filter Char.isDigit ∧
          ∀ c ∈ pre, c = '0') ∧
    ∃ h2 : 0 < (padronizar_dados_clientes [cliNullPhone]).length,
      ((padronizar_dados_clientes [cliNullPhone]).get ⟨0, h2⟩).telefone =
        .vStr "00000000000" := by
  obtain ⟨h1, h2, h3⟩ := C10_phone_normalization
  obtain ⟨hl, hget⟩ := h3 [cliNullPhone] 0 (by decide)
  refine ⟨h1 (.vStr "(11) 98765-4321"), hl, ?_⟩
  rw [hget]
  decide

/-- C3: keep-first versus keep-last dedup.  For any table and key, the
ingestion dedup keeps exactly the first row bearing each key value and
the correction dedup (`remover_duplicatas`, which sorts by the key and
then drops duplicates keeping the last) keeps exactly the last row in
source order bearing each key value; both return only rows of the input
(no merging of field values); and on two Customer rows sharing id "C1"
with different names the correction dedup retains the later row while
the ingestion dedup retains the earlier one. -/
theorem C3_dedup_policy :
    (∀ (α : Type) (key : α → Value) (l : List α) (k : Value),
        (dedupFirst key l).filter (fun r => decide (key r = k)) =
          ((l.filter fun r => decide (key r = k)).head?).toList) ∧
    (∀ (α : Type) (key : α → Value) (l : List α) (k : Value),
        (remover_duplicatas key l).filter (fun r => decide (key r = k)) =
          ((l.filter fun r => decide (key r = k)).getLast?).toList) ∧
    (∀ (α : Type) (key : α → Value) (l : List α) (r : α),
        r ∈ dedupFirst key l → r ∈ l) ∧
    (∀ (α : Type) (key : α → Value) (l : List α) (r : α),
        r ∈ remover_duplicatas key l → r ∈ l) ∧
    remover_duplicatas (fun r => r.id_cliente) [cli1, cli1B] = [cli1B] ∧
    dedupFirst (fun r => r.id_cliente) [cli1, cli1B] = [cli1] := by
  refine ⟨?_, ?_, ?_, ?_, by decide, by decide⟩
  · intro α key l k
    exact dedupFirst_filter_key key k l
  · intro α key l k
    exact remover_filter_key key k l
  · intro α key l r hr
    exact (dedupFirst_sublist key l).mem hr
  · intro α key l r hr
    exact mem_of_mem_remover key hr

/-- Witness for C3: on the two-row "C1" table, the later row `cli1B` is
what the correction dedup keeps, and it is a row of the input. -/
theorem C3_dedup_policy_witness :
    cli1B ∈ [cli1, cli1B] ∧
    remover_duplicatas (fun r => r.id_cliente) [cli1, cli1B] = [cli1B] := by
  obtain ⟨-, -, -, h4, h5, -⟩ := C3_dedup_policy
  refine ⟨h4 Cliente (fun r => r.id_cliente) [cli1, cli1B] cli1B ?_, h5⟩
  rw [h5]
  decide

/-- C8: if any one of the five required raw input files is absent, the
ingestion run terminates with an error (the exception propagates out of
the module body) and no output file is written for any entity, including
the entities whose files were present and loaded before the failure. -/
theorem C8_fatal_load_atomic (fs : FileSystem)
    (h : fs.clientes = none ∨ fs.clientes_lab = none ∨ fs.produtos = none ∨
      fs.vendas = none ∨ fs.logistica = none) :
    (∃ e, runIngestao fs = .error e) ∧ writtenFiles (runIngestao fs) = [] := by
  obtain ⟨oc, ol, op, ov, og⟩ := fs
  rcases h with h | h | h | h | h
  · cases h
    exact ⟨⟨_, rfl⟩, rfl⟩
  · cases h
    cases oc <;> exact ⟨⟨_, rfl⟩, rfl⟩
  · cases h
    cases oc <;> cases ol <;> exact ⟨⟨_, rfl⟩, rfl⟩
  · cases h
    cases oc <;> cases ol <;> cases op <;> exact ⟨⟨_, rfl⟩, rfl⟩
  · cases h
    cases oc <;> cases ol <;> cases op <;> cases ov <;> exact ⟨⟨_, rfl⟩, rfl⟩

/-- Witness for C8: a source directory where only `vendas.csv` is
missing, all earlier files present; the run errors and writes nothing. -/
theorem C8_fatal_load_atomic_witness :
    (∃ e, runIngestao ⟨some [cli1], some [lab1], some [prod1], none, some [log1]⟩ =
      .error e) ∧
    writtenFiles (runIngestao
      ⟨some [cli1], some [lab1], some [prod1], none, some [log1]⟩) = [] :=
  C8_fatal_load_atomic ⟨some [cli1], some [lab1], some [prod1], none, some [log1]⟩
    (Or.inr (Or.inr (Or.inr (Or.inl rfl))))

/-- C6: every normalizer is idempotent on its own output — the five
ingestion cleaners (with the same parent key sets), the five per-entity
instances of the correction-stage `padronizar_dados`, and the
sort-and-keep-last dedup `remover_duplicatas`: a second application
drops no further rows, removes no further duplicates and changes no
field value. -/
theorem C6_normalizer_idempotent :
    (∀ df : List Cliente, clean_clientes (clean_clientes df) = clean_clientes df) ∧
    (∀ df : List ClienteLab,
        clean_clientes_lab (clean_clientes_lab df) = clean_clientes_lab df) ∧
    (∀ df : List Produto, clean_produtos (clean_produtos df) = clean_produtos df) ∧
    (∀ (df : List Venda) (cids pids : List Value),
        clean_vendas (clean_vendas df cids pids) cids pids = clean_vendas df cids pids) ∧
    (∀ (df : List Logistica) (vids : List Value),
        clean_logistica (clean_logistica df vids) vids = clean_logistica df vids) ∧
    (∀ df : List Cliente,
        padronizar_dados_clientes (padronizar_dados_clientes df) =
          padronizar_dados_clientes df) ∧
    (∀ df : List ClienteLab,
        padronizar_dados_clientes_lab (padronizar_dados_clientes_lab df) =
          padronizar_dados_clientes_lab df) ∧
    (∀ df : List Produto,
        padronizar_dados_produtos (padronizar_dados_produtos df) =
          padronizar_dados_produtos df) ∧
    (∀ df : List Venda,
        padronizar_dados_vendas (padronizar_dados_vendas df) =
          padronizar_dados_vendas df) ∧
    (∀ df : List Logistica,
        padronizar_dados_logistica (padronizar_dados_logistica df) =
          padronizar_dados_logistica df) ∧
    (∀ (α : Type) (key : α → Value) (l : List α),
        remover_duplicatas key (remover_duplicatas key l) = remover_duplicatas key l) :=
  ⟨clean_clientes_idem, clean_clientes_lab_idem, clean_produtos_idem,
    clean_vendas_idem, clean_logistica_idem, padronizar_clientes_idem,
    padronizar_clientes_lab_idem, padronizar_produtos_idem, padronizar_vendas_idem,
    padronizar_logistica_idem, fun _ key l => remover_idem key l⟩

/-- C7: in both stages, every output entity table is duplicate-free on
its declared natural key: clientes and clientes_lab on id_cliente,
produtos on id_produto, vendas on id_venda and logistica on id_entrega,
for the five ingestion outputs and the five correction outputs
(including the final re-filtered vendas and repaired logistica). -/
theorem C7_key_uniqueness (raw : RawData) :
    (((runCleanStage raw).clientes.map fun r => r.id_cliente).Nodup) ∧
    (((runCleanStage raw).clientes_lab.map fun r => r.id_cliente).Nodup) ∧
    (((runCleanStage raw).produtos.map fun r => r.id_produto).Nodup) ∧
    (((runCleanStage raw).vendas.map fun r => r.id_venda).Nodup) ∧
    (((runCleanStage raw).logistica.map fun r => r.id_entrega).Nodup) ∧
    (((runCorrecao (runCleanStage raw)).clientes.map fun r => r.id_cliente).Nodup) ∧
    (((runCorrecao (runCleanStage raw)).clientes_lab.map fun r => r.id_cliente).Nodup) ∧
    (((runCorrecao (runCleanStage raw)).produtos.map fun r => r.id_produto).Nodup) ∧
    (((runCorrecao (runCleanStage raw)).vendas.map fun r => r.id_venda).Nodup) ∧
    (((runCorrecao (runCleanStage raw)).logistica.map fun r => r.id_entrega).Nodup) := by
  simp only [runCleanStage, runCorrecao]
  refine ⟨clean_clientes_keys_nodup _, clean_clientes_lab_keys_nodup _,
    clean_produtos_keys_nodup _, clean_vendas_keys_nodup _ _ _,
    clean_logistica_keys_nodup _ _, processar_clientes_keys_nodup _,
    processar_clientes_lab_keys_nodup _, processar_produtos_keys_nodup _, ?_, ?_⟩
  · simp only [corrigir_inconsistencias, validar_relacionamentos]
    exact keys_nodup_filter _ _ (processar_vendas_keys_nodup _)
  · simp only [corrigir_inconsistencias]
    refine keys_nodup_map _ _ ?_ ?_
    · intro r
      split <;> rfl
    · exact processar_logistica_keys_nodup _

/-- C4: date-parse failure handling per stage.  At ingestion, every row
of the cleaned clientes, clientes_lab, produtos and vendas tables
carries an actual parsed date in its required date fields (a row whose
date failed to parse would carry the null marker there and is dropped by
the dropna step), while `clean_logistica` drops no row at its date step
— its length is exactly that of the dedup-and-FK-filter stage and its
date cells are merely coerced (date or null).  At the correction stage
`padronizar_dados` keeps every row and turns an unparseable date cell
into the null marker. -/
theorem C4_date_parse_policy :
    (∀ df : List Cliente, ∀ r ∈ clean_clientes df,
        (∃ d, r.data_nascimento = .vDate d) ∧ ∃ d, r.data_cadastro = .vDate d) ∧
    (∀ df : List ClienteLab, ∀ r ∈ clean_clientes_lab df,
        ∃ d, r.data_cadastro = .vDate d) ∧
    (∀ df : List Produto, ∀ r ∈ clean_produtos df, ∃ d, r.data_criacao = .vDate d) ∧
    (∀ (df : List Venda) (cids pids : List Value), ∀ r ∈ clean_vendas df cids pids,
        ∃ d, r.data_venda = .vDate d) ∧
    (∀ (df : List Logistica) (vids : List Value),
        (clean_logistica df vids).length =
          ((dedupFirst (fun r => r.id_entrega) df).filter fun r =>
            isinV r.id_venda vids).length ∧
        ∀ r ∈ clean_logistica df vids,
          r.data_entrega_real = .vNull ∨ ∃ d, r.data_entrega_real = .vDate d) ∧
    (∀ (df : List Cliente) (i : Nat) (h : i < df.length),
        ∃ h2 : i < (padronizar_dados_clientes df).length,
          (padronizar_dados_clientes df).length = df.length ∧
          (parseDateV (df.get ⟨i, h⟩).data_cadastro = none →
            ((padronizar_dados_clientes df).get ⟨i, h2⟩).data_cadastro = .vNull)) ∧
    (∀ (df : List Logistica) (i : Nat) (h : i < df.length),
        ∃ h2 : i < (padronizar_dados_logistica df).length,
          (padronizar_dados_logistica df).length = df.length ∧
          (parseDateV (df.get ⟨i, h⟩).data_entrega_real = none →
            ((padronizar_dados_logistica df).get ⟨i, h2⟩).data_entrega_real = .vNull)) := by
  refine ⟨?_, ?_, ?_, ?_, ?_, ?_, ?_⟩
  · intro df r hr
    obtain ⟨-, -, -, h4, h5, h6, h7⟩ := mem_clean_clientes hr
    rw [Bool.and_eq_true] at h7
    exact ⟨isDate_of_fixed_notna h5 h7.1, isDate_of_fixed_notna h6 h7.2⟩
  · intro df r hr
    obtain ⟨-, -, -, -, h5, h6⟩ := mem_clean_clientes_lab hr
    exact isDate_of_fixed_notna h5 h6
  · intro df r hr
    obtain ⟨-, -, -, -, h5, h6, -⟩ := mem_clean_produtos hr
    exact isDate_of_fixed_notna h5 h6
  · intro df cids pids r hr
    obtain ⟨-, -, -, -, -, h6, h7⟩ := mem_clean_vendas hr
    exact isDate_of_fixed_notna h6 h7
  · intro df vids
    refine ⟨by simp [clean_logistica], ?_⟩
    intro r hr
    obtain ⟨-, -, -, h4⟩ := mem_clean_logistica hr
    exact dateOrNull_of_fixed h4
  · intro df i h
    refine ⟨by simpa [padronizar_dados_clientes] using h, by simp [padronizar_dados_clientes], ?_⟩
    intro hp
    simp only [padronizar_dados_clientes, List.get_eq_getElem, List.getElem_map]
    exact toDateV_of_parse_none hp
  · intro df i h
    refine ⟨by simpa [padronizar_dados_logistica] using h, by simp [padronizar_dados_logistica], ?_⟩
    intro hp
    simp only [padronizar_dados_logistica, List.get_eq_getElem, List.getElem_map]
    exact toDateV_of_parse_none hp

/-- Witness for C4: a logistics row whose delivery date "not-a-date"
does not parse is retained by the correction-stage standardization with
that cell nulled, and the cleaned row of a parseable customer extract
carries actual date values. -/
theorem C4_date_parse_policy_witness :
    (∃ h2 : 0 < (padronizar_dados_logistica [logBad]).length,
      (padronizar_dados_logistica [logBad]).length = [logBad].length ∧
      ((padronizar_dados_logistica [logBad]).get ⟨0, h2⟩).data_entrega_real = .vNull) ∧
    ∃ d, cli1c.data_cadastro = .vDate d := by
  obtain ⟨hcli, -, -, -, -, -, hlog⟩ := C4_date_parse_policy
  obtain ⟨h2, hlen, himp⟩ := hlog [logBad] 0 (by decide)
  refine ⟨⟨h2, hlen, himp (by decide)⟩, ?_⟩
  exact (hcli [cli1] _ (by decide)).2

/-- C5: domain invariants of the cleaned output.  In the ingestion
output and in the corrected output, every Product row has a numeric
price at least 0 and a numeric stock at least 0, and every Sale row has
a numeric quantity strictly greater than 0; in the corrected output
every Logistics row has an actual delivery date that is either null or,
whenever the ship date is an actual date, a date not earlier than it;
and a Product row with price -5 is dropped entirely by
`clean_produtos`. -/
theorem C5_domain_invariants (raw : RawData) :
    (∀ p ∈ (runCleanStage raw).produtos,
        (∃ n, p.preco = .vNum n ∧ 0 ≤ n) ∧ ∃ n, p.estoque = .vNum n ∧ 0 ≤ n) ∧
    (∀ p ∈ (runCorrecao (runCleanStage raw)).produtos,
        (∃ n, p.preco = .vNum n ∧ 0 ≤ n) ∧ ∃ n, p.estoque = .vNum n ∧ 0 ≤ n) ∧
    (∀ v ∈ (runCleanStage raw).vendas, ∃ n, v.quantidade = .vNum n ∧ 0 < n) ∧
    (∀ v ∈ (runCorrecao (runCleanStage raw)).vendas,
        ∃ n, v.quantidade = .vNum n ∧ 0 < n) ∧
    (∀ g ∈ (runCorrecao (runCleanStage raw)).logistica,
        g.data_entrega_real = .vNull ∨
        ∀ e, g.data_envio = .vDate e → ∃ d, g.data_entrega_real = .vDate d ∧ e ≤ d) ∧
    (∀ (df : List Produto) (p : Produto), p.preco = .vNum (-5) →
        p ∉ clean_produtos df) := by
  refine ⟨?_, ?_, ?_, ?_, ?_, ?_⟩
  · intro p hp
    simp only [runCleanStage] at hp
    obtain ⟨-, -, h3, h4, -, -, -⟩ := mem_clean_produtos hp
    exact ⟨numGe_spec h3, numGe_spec h4⟩
  · intro p hp
    simp only [runCorrecao, runCleanStage] at hp
    obtain ⟨p0, hp0, -, hpre, hest⟩ := mem_processar_produtos hp
    obtain ⟨-, -, h3, h4, -, -, -⟩ := mem_clean_produtos hp0
    rw [hpre, hest]
    exact ⟨numGe_spec h3, numGe_spec h4⟩
  · intro v hv
    simp only [runCleanStage] at hv
    obtain ⟨-, -, h3, -, -, -, -⟩ := mem_clean_vendas hv
    exact numGt_spec h3
  · intro v hv
    simp only [runCorrecao, runCleanStage, corrigir_inconsistencias,
      validar_relacionamentos] at hv
    obtain ⟨hv, -⟩ := List.mem_filter.mp hv
    obtain ⟨v0, hv0, -, -, -, hq⟩ := mem_processar_vendas hv
    obtain ⟨-, -, h3, -, -, -, -⟩ := mem_clean_vendas hv0
    rw [hq]
    exact numGt_spec h3
  · intro g hg
    simp only [runCorrecao, runCleanStage, corrigir_inconsistencias] at hg
    obtain ⟨g1, hg1, rfl⟩ := List.mem_map.mp hg
    obtain ⟨g0, hg0, -, -, henv, -, hreal⟩ := mem_processar_logistica hg1
    split
    · exact Or.inl rfl
    · rename_i hc
      rcases toDateV_shape g0.data_entrega_real with hnull | ⟨dd, hdd⟩
    -- the two shapes of the (unchanged) delivery cell
      · exact Or.inl (hreal.trans hnull)
      · refine Or.inr ?_
        intro e he
        refine ⟨dd, hreal.trans hdd, ?_⟩
        have hfalse : Value.vltDate g1.data_entrega_real g1.data_envio = false :=
          Bool.not_eq_true _ ▸ Bool.of_not_eq_true hc
        exact vltDate_false hfalse dd e (hreal.trans hdd) he
  · intro df p hpre hmem
    obtain ⟨-, -, h3, -, -, -, -⟩ := mem_clean_produtos hmem
    rw [hpre] at h3
    simp [Value.numGe] at h3

/-- Witness for C5: on the sample raw data the corrected product row has
a non-negative price, and the concrete price -5 product is dropped:
cleaning its one-row table yields the empty table. -/
theorem C5_domain_invariants_witness :
    (∃ n, prod1c.preco = .vNum n ∧ 0 ≤ n) ∧
    ({ prod1 with preco := .vNum (-5) } : Produto) ∉
      clean_produtos [{ prod1 with preco := .vNum (-5) }] := by
  obtain ⟨-, hco, -, -, -, hdrop⟩ := C5_domain_invariants sampleRaw
  refine ⟨(hco prod1c (by decide)).1, hdrop _ _ rfl⟩

theorem isinV_mem {v : Value} {ids : List Value} (h : isinV v ids = true) : v ∈ ids := by
  simpa [isinV] using h

theorem mem_isinV {v : Value} {ids : List Value} (h : v ∈ ids) : isinV v ids = true := by
  simpa [isinV]

theorem fix_id_venda (r : Logistica) :
    (if Value.vltDate r.data_entrega_real r.data_envio then
      { r with data_entrega_real := Value.vNull } else r).id_venda = r.id_venda := by
  split <;> rfl

/-- C1: referential closure of the pipeline output.  In the ingestion
output, every Sale row references a cleaned Customer id and a cleaned
Product id (both keys, conjunctively) and every Logistics row references
a cleaned Sale id; and the same holds of the correction output, where
vendas is filtered by `validar_relacionamentos` but logistica is written
afterwards without being re-filtered against the reduced vendas table —
closure still holds there because on referentially closed input the
validation removes no sale whose id a logistics row references. -/
theorem C1_referential_closure (raw : RawData) :
    (∀ v ∈ (runCleanStage raw).vendas,
        v.id_cliente ∈ (runCleanStage raw).clientes.map (fun c => c.id_cliente) ∧
        v.id_produto ∈ (runCleanStage raw).produtos.map (fun p => p.id_produto)) ∧
    (∀ g ∈ (runCleanStage raw).logistica,
        g.id_venda ∈ (runCleanStage raw).vendas.map (fun v => v.id_venda)) ∧
    (∀ v ∈ (runCorrecao (runCleanStage raw)).vendas,
        v.id_cliente ∈
          (runCorrecao (runCleanStage raw)).clientes.map (fun c => c.id_cliente) ∧
        v.id_produto ∈
          (runCorrecao (runCleanStage raw)).produtos.map (fun p => p.id_produto)) ∧
    (∀ g ∈ (runCorrecao (runCleanStage raw)).logistica,
        g.id_venda ∈ (runCorrecao (runCleanStage raw)).vendas.map (fun v => v.id_venda)) := by
  refine ⟨?_, ?_, ?_, ?_⟩
  · intro v hv
    simp only [runCleanStage] at hv ⊢
    obtain ⟨h1, h2, -, -, -, -, -⟩ := mem_clean_vendas hv
    exact ⟨isinV_mem h1, isinV_mem h2⟩
  · intro g hg
    simp only [runCleanStage] at hg ⊢
    obtain ⟨h1, -, -, -⟩ := mem_clean_logistica hg
    exact isinV_mem h1
  · intro v hv
    simp only [runCorrecao, runCleanStage, corrigir_inconsistencias,
      validar_relacionamentos] at hv ⊢
    obtain ⟨-, hpred⟩ := List.mem_filter.mp hv
    rw [Bool.and_eq_true] at hpred
    exact ⟨isinV_mem hpred.1, isinV_mem hpred.2⟩
  · intro g hg
    simp only [runCorrecao, runCleanStage, corrigir_inconsistencias,
      validar_relacionamentos] at hg ⊢
    obtain ⟨g1, hg1, hgeq⟩ := List.mem_map.mp hg
    have hgid : g.id_venda = g1.id_venda := by
      rw [← hgeq]
      exact fix_id_venda g1
    obtain ⟨g0, hg0, -, hid, -, -, -⟩ := mem_processar_logistica hg1
    obtain ⟨h1, -, -, -⟩ := mem_clean_logistica hg0
    obtain ⟨v0, hv0, hv0id⟩ := List.mem_map.mp (isinV_mem h1)
    obtain ⟨v1, hv1, hv1id⟩ := exists_key_processar_vendas v0 hv0
    obtain ⟨v2, hv2, hv2idv, hv2idc, hv2idp, -⟩ := mem_processar_vendas hv1
    obtain ⟨hc2, hp2, -, -, -, -, -⟩ := mem_clean_vendas hv2
    obtain ⟨c0, hc0, hc0id⟩ := List.mem_map.mp (isinV_mem hc2)
    obtain ⟨c1, hc1, hc1id⟩ := exists_key_processar_clientes c0 hc0
    obtain ⟨p0, hp0, hp0id⟩ := List.mem_map.mp (isinV_mem hp2)
    obtain ⟨p1, hp1, hp1id⟩ := exists_key_processar_produtos p0 hp0
    have hcond : (isinV v1.id_cliente
          ((processar_clientes (clean_clientes raw.clientes)).map fun c => c.id_cliente) &&
        isinV v1.id_produto
          ((processar_produtos (clean_produtos raw.produtos)).map fun p => p.id_produto))
        = true := by
      rw [Bool.and_eq_true]
      constructor
      · apply mem_isinV
        refine List.mem_map.mpr ⟨c1, hc1, ?_⟩
        rw [hc1id, hc0id, hv2idc]
      · apply mem_isinV
        refine List.mem_map.mpr ⟨p1, hp1, ?_⟩
        rw [hp1id, hp0id, hv2idp]
    refine List.mem_map.mpr ⟨v1, List.mem_filter.mpr ⟨hv1, hcond⟩, ?_⟩
    rw [hv1id, hv0id, hgid, hid]

/-- Witness for C1: on the sample raw data, the corrected logistics row
references the sale id "V1", which is present in the corrected vendas
output even though logistica was not re-filtered after the validation of
vendas. -/
theorem C1_referential_closure_witness :
    log1co ∈ (runCorrecao (runCleanStage sampleRaw)).logistica ∧
    log1co.id_venda ∈
      (runCorrecao (runCleanStage sampleRaw)).vendas.map (fun v => v.id_venda) := by
  have hmem : log1co ∈ (runCorrecao (runCleanStage sampleRaw)).logistica := by decide
  exact ⟨hmem, (C1_referential_closure sampleRaw).2.2.2 log1co hmem⟩
